import Mathlib

/-!
A shallow embedding of the `liqcalc` repository (src/app.py, src/liqcalc.py),
a Streamlit dashboard that simulates price and collateral overrides on a
cached snapshot of a Drift margin account.

Modelling conventions:
* Python floats are modelled as exact rationals (`ℚ`); on-chain fixed-point
  integers as `ℤ`.
* Python `int(x)` (truncation toward zero) is `ratTrunc`.
* Python dicts (`st.session_state`, `cache["oracle_price_data"]`,
  `price_changes`, ...) are association lists with insertion-order append.
* Python object identity and in-place mutation are modelled with explicit
  heaps of snapshot objects (`Heaps`); `copy.deepcopy` allocates a fresh
  cell holding the same value, attribute assignment writes a heap cell.
* Exceptions are modelled with `Except` / an explicit `raised` outcome;
  Streamlit early `return`s after `st.warning`/`st.error`/`st.info` are the
  `halted` outcome carrying the displayed message.
* External driftpy SDK risk functions (`get_spot_liq_price`,
  `get_perp_liq_price`, `get_health`, `get_token_amount`) are abstract
  parameters (`SDK`): the repository only calls them.
-/

namespace LiqCalc

/-- Python `int(x)` applied to a real number: truncation toward zero. -/
def ratTrunc (q : ℚ) : ℤ :=
  if 0 ≤ q then ((q.num.natAbs / q.den : ℕ) : ℤ) else -((q.num.natAbs / q.den : ℕ) : ℤ)

/-- Lookup in an association list (first matching key, like a Python dict). -/
def lookupK {κ α : Type} [DecidableEq κ] : List (κ × α) → κ → Option α
  | [], _ => none
  | (k, v) :: t, k' => if k = k' then some v else lookupK t k'

/-- Python dict assignment `d[k] = v`: update the existing entry, else append. -/
def setK {κ α : Type} [DecidableEq κ] : List (κ × α) → κ → α → List (κ × α)
  | [], k, v => [(k, v)]
  | (k', v') :: t, k, v =>
    if k' = k then (k', v) :: t else (k', v') :: setK t k v

/-- Update the value at key `k` if present; leave the dict unchanged otherwise
(the `if oracle_key in oracle_price_data` guard of src/liqcalc.py:279). -/
def updK {κ α : Type} [DecidableEq κ] : List (κ × α) → κ → (α → α) → List (κ × α)
  | [], _, _ => []
  | (k', v) :: t, k, f =>
    if k' = k then (k', f v) :: t else (k', v) :: updK t k f

/-- Oracle identifier: driftpy `get_oracle_id(oracle, oracle_source)`, a
function of the oracle address and source type; modelled as the pair. -/
abbrev OracleId := Nat × Nat

/-- Widget key string for an oracle id (oracle ids render as strings inside
Streamlit widget keys). -/
def oidStr (o : OracleId) : String := toString o.1 ++ "-" ++ toString o.2

/-- An oracle price record: `cache["oracle_price_data"][k].data.price`. -/
structure OraclePriceData where
  price : ℤ
  deriving DecidableEq, Repr

/-- The `.data`-carrying wrapper stored in the oracle price dict. -/
structure OracleDataAndSlot where
  data : OraclePriceData
  slot : Nat
  deriving DecidableEq, Repr

/-- A spot position as constructed at src/liqcalc.py:312-321. -/
structure SpotPosition where
  scaled_balance : ℤ
  open_bids : ℤ
  open_asks : ℤ
  cumulative_deposits : ℤ
  market_index : Nat
  balance_type : Nat
  open_orders : Nat
  padding : List Nat
  deriving DecidableEq, Repr

/-- A perp position (only the fields the repository reads). -/
structure PerpPosition where
  market_index : Nat
  base_asset_amount : ℤ
  deriving DecidableEq, Repr

/-- A spot market account (fields read by src/liqcalc.py). `name` models the
null-stripped byte decoding of `get_market_name`. -/
structure SpotMarket where
  market_index : Nat
  name : String
  oracle : Nat
  oracle_source : Nat
  decimals : Nat
  deriving DecidableEq, Repr

/-- A perp market account; `ammOracle`/`ammOracleSource` model
`market.amm.oracle` / `market.amm.oracle_source`. -/
structure PerpMarket where
  market_index : Nat
  name : String
  ammOracle : Nat
  ammOracleSource : Nat
  deriving DecidableEq, Repr

/-- The clearing-house market cache (`clearing_house.account_subscriber.cache`). -/
structure CHCache where
  oracle_price_data : List (OracleId × OracleDataAndSlot)
  spot_markets : List SpotMarket
  perp_markets : List PerpMarket
  deriving DecidableEq, Repr

/-- The user account snapshot payload (`user_and_slot.data`). -/
structure UserAccount where
  spot_positions : List SpotPosition
  perp_positions : List PerpPosition
  deriving DecidableEq, Repr

/-- `user.account_subscriber.user_and_slot`. -/
structure UserAndSlot where
  data : UserAccount
  slot : Nat
  deriving DecidableEq, Repr

/-- Heaps of snapshot objects, modelling Python object identity: session
state and the client/user subscribers hold references (indices), and
`copy.deepcopy` allocates a fresh cell with an equal value. -/
structure Heaps where
  chHeap : List CHCache
  usHeap : List UserAndSlot
  deriving DecidableEq, Repr

def Heaps.empty : Heaps := ⟨[], []⟩

def getCH (hp : Heaps) (i : Nat) : Option CHCache := hp.chHeap[i]?

def getUS (hp : Heaps) (i : Nat) : Option UserAndSlot := hp.usHeap[i]?

/-- Allocate a fresh clearing-house cache object (deepcopy / fresh fetch). -/
def allocCH (hp : Heaps) (c : CHCache) : Heaps × Nat :=
  ({ hp with chHeap := hp.chHeap ++ [c] }, hp.chHeap.length)

/-- Allocate a fresh user snapshot object. -/
def allocUS (hp : Heaps) (u : UserAndSlot) : Heaps × Nat :=
  ({ hp with usHeap := hp.usHeap ++ [u] }, hp.usHeap.length)

/-- In-place attribute assignment on the user snapshot object at index `i`
(src/liqcalc.py:327). -/
def setUS (hp : Heaps) (i : Nat) (u : UserAndSlot) : Heaps :=
  { hp with usHeap := hp.usHeap.set i u }

/-- The adjustment-mode radio options (src/liqcalc.py:145-150). -/
inductive Mode where
  | value
  | percentage
  deriving DecidableEq, Repr

/-- Streamlit `st.session_state`, restricted to the keys this program uses.
The free-form numeric widget keys (`price_value_*`, `price_pct_change_*`,
`balance_value_*`, `balance_pct_change_*`) live in `widgets`; the snapshot
fields hold heap references. `user_and_slot = some none` models the key
holding Python `None`. -/
structure SessionState where
  current_authority : Option String := none
  clearing_house_cache : Option Nat := none
  user_and_slot : Option (Option Nat) := none
  subaccount : Option Nat := none
  adjustment_mode : Option Mode := none
  widgets : List (String × ℚ) := []
  original_token_amounts : List (Nat × ℤ) := []
  deriving DecidableEq, Repr

/-- Python `s.startswith(pre)`: the characters of `pre` are a prefix of the
characters of `s` (an executable equivalent of `String.startsWith`). -/
def strStartsWith (s pre : String) : Bool :=
  pre.data.isPrefixOf s.data

/-- The key-deletion loop of src/liqcalc.py:93-95: drop every session key
starting with `price_` or `balance_`. -/
def eraseOverrideKeys (l : List (String × ℚ)) : List (String × ℚ) :=
  l.filter (fun p => !(strStartsWith p.1 "price_" || strStartsWith p.1 "balance_"))

/-- driftpy cached-mode `get_spot_market_account`: look the market up in the
cache by index. -/
def findSpotMarket (c : CHCache) (idx : Nat) : Option SpotMarket :=
  c.spot_markets.find? (fun m => m.market_index = idx)

/-- driftpy cached-mode `get_perp_market_account`. -/
def findPerpMarket (c : CHCache) (idx : Nat) : Option PerpMarket :=
  c.perp_markets.find? (fun m => m.market_index = idx)

/-- `get_oracle_id(market.amm.oracle, market.amm.oracle_source)` for a perp
market (src/liqcalc.py:116). -/
def perpOracleId (m : PerpMarket) : OracleId := (m.ammOracle, m.ammOracleSource)

/-- `get_oracle_id(market.oracle, market.oracle_source)` for a spot market
(src/liqcalc.py:131). -/
def spotOracleId (m : SpotMarket) : OracleId := (m.oracle, m.oracle_source)

/-- driftpy `user.get_oracle_data_for_perp_market`: resolve the market's
oracle record in the cache; `none` models a missing entry / `None`. -/
def getOracleDataForPerpMarket (c : CHCache) (idx : Nat) : Option OraclePriceData :=
  (findPerpMarket c idx).bind fun m =>
    (lookupK c.oracle_price_data (perpOracleId m)).map (fun r => r.data)

/-- driftpy `user.get_oracle_data_for_spot_market`. -/
def getOracleDataForSpotMarket (c : CHCache) (idx : Nat) : Option OraclePriceData :=
  (findSpotMarket c idx).bind fun m =>
    (lookupK c.oracle_price_data (spotOracleId m)).map (fun r => r.data)

/-- driftpy `get_active_spot_positions`: the user's spot positions that carry
a nonzero balance (external SDK accessor; the spec's "active spot positions"). -/
def activeSpotPositions (u : UserAccount) : List SpotPosition :=
  u.spot_positions.filter (fun p => p.scaled_balance ≠ 0)

/-- driftpy `get_active_perp_positions`: perp positions of nonzero base size
(external SDK accessor; the spec's "active perp positions"). -/
def activePerpPositions (u : UserAccount) : List PerpPosition :=
  u.perp_positions.filter (fun p => p.base_asset_amount ≠ 0)

/-- The `"type"` tag of an `oracle_markets` entry. -/
inductive MType where
  | perp
  | spot
  deriving DecidableEq, Repr

/-- One entry of the `oracle_markets` grouping dict (src/liqcalc.py:119-126,
134-141); of the stored dict only the type, name and index are read later. -/
structure MarketRef where
  mtype : MType
  name : String
  index : Nat
  deriving DecidableEq, Repr

/-- Append a market to its oracle's group, creating the group at the end of
the dict when absent (Python dict insertion order). -/
def addToGroups : List (OracleId × List MarketRef) → OracleId → MarketRef →
    List (OracleId × List MarketRef)
  | [], k, m => [(k, [m])]
  | (k', ms) :: t, k, m =>
    if k' = k then (k', ms ++ [m]) :: t else (k', ms) :: addToGroups t k m

/-- The perp half of the grouping loop (src/liqcalc.py:114-126). A missing
market account would make the Python attribute accesses raise. -/
def groupPerps (c : CHCache) :
    List PerpPosition → List (OracleId × List MarketRef) →
    Except String (List (OracleId × List MarketRef))
  | [], gs => .ok gs
  | pos :: rest, gs =>
    match findPerpMarket c pos.market_index with
    | none => .error "AttributeError: perp market account not found"
    | some m =>
      groupPerps c rest
        (addToGroups gs (perpOracleId m) ⟨MType.perp, m.name, pos.market_index⟩)

/-- The spot half of the grouping loop (src/liqcalc.py:128-142), also
accumulating `max_spot_decimals`. -/
def groupSpots (c : CHCache) :
    List SpotPosition → List (OracleId × List MarketRef) → Nat →
    Except String (List (OracleId × List MarketRef) × Nat)
  | [], gs, d => .ok (gs, d)
  | pos :: rest, gs, d =>
    match findSpotMarket c pos.market_index with
    | none => .error "AttributeError: spot market account not found"
    | some m =>
      groupSpots c rest
        (addToGroups gs (spotOracleId m) ⟨MType.spot, m.name, pos.market_index⟩)
        (max d m.decimals)

/-- `oracle_markets` (src/liqcalc.py:112-142): perp positions first, then
spot positions, grouped by oracle id. -/
def buildOracleMarkets (c : CHCache) (perps : List PerpPosition)
    (spots : List SpotPosition) :
    Except String (List (OracleId × List MarketRef) × Nat) :=
  match groupPerps c perps [] with
  | .error e => .error e
  | .ok gs => groupSpots c spots gs 0

/-- Mode-switch seeding, absolute from percentage: `original * (1 + pct/100)`
(src/liqcalc.py:175-177, 205, 232-234, 267). -/
def fromPctSeed (orig pct : ℚ) : ℚ := orig * (1 + pct / 100)

/-- Mode-switch seeding, percentage from absolute:
`((value - original) / original) * 100` (src/liqcalc.py:192-194, 253-255);
Python raises `ZeroDivisionError` when `original == 0`, which callers model
explicitly. -/
def toPctSeed (v orig : ℚ) : ℚ := ((v - orig) / orig) * 100

/-- The `-100.0` floor passed as `min_value` to every percentage widget. -/
def pctMin : ℚ := -100

/-- `st.number_input(key=k, min_value=minv)`: the widget's current value is
the operator's fresh entry if any, else the session-seeded value; the widget
does not accept values below `min_value` (modelled as a clamp). -/
def numberInput (entries sess : List (String × ℚ)) (k : String)
    (minv : Option ℚ) : ℚ :=
  let raw := match lookupK entries k with
    | some v => v
    | none => (lookupK sess k).getD 0
  match minv with
  | some m => max m raw
  | none => raw

/-- The price-adjustment widget loop (src/liqcalc.py:156-206). Walks the
`oracle_markets` dict, seeds the complementary widget key when switching
modes, reads the widget, and records one entry of `price_changes` per
oracle. Errors carry the widget state at the Python raise site. -/
def priceWidgetsGo (cache : CHCache) (mode : Mode) (entries : List (String × ℚ)) :
    List (OracleId × List MarketRef) → List (String × ℚ) → List (OracleId × ℚ) →
    Except (String × List (String × ℚ)) (List (String × ℚ) × List (OracleId × ℚ))
  | [], w, acc => .ok (w, acc)
  | (ok, ms) :: rest, w, acc =>
    match ms with
    | [] => .error ("IndexError: empty market group", w)
    | m0 :: _ =>
      match (match m0.mtype with
             | MType.perp => getOracleDataForPerpMarket cache m0.index
             | MType.spot => getOracleDataForSpotMarket cache m0.index) with
      | none => .error ("AttributeError: oracle data is None", w)
      | some od =>
        let initial : ℚ := (od.price : ℚ) / 1000000
        let vk := "price_value_" ++ oidStr ok
        let pk := "price_pct_change_" ++ oidStr ok
        match mode with
        | Mode.value =>
          let w1 := match lookupK w vk with
            | some _ => w
            | none =>
              match lookupK w pk with
              | some p => setK w vk (fromPctSeed initial p)
              | none => setK w vk initial
          let np := numberInput entries w1 vk none
          priceWidgetsGo cache mode entries rest (setK w1 vk np) (acc ++ [(ok, np)])
        | Mode.percentage =>
          match lookupK w pk with
          | some _ =>
            let pct := numberInput entries w pk (some pctMin)
            priceWidgetsGo cache mode entries rest (setK w pk pct)
              (acc ++ [(ok, fromPctSeed initial pct)])
          | none =>
            match lookupK w vk with
            | some v =>
              if initial = 0 then .error ("ZeroDivisionError: division by zero", w)
              else
                let w1 := setK w pk (toPctSeed v initial)
                let pct := numberInput entries w1 pk (some pctMin)
                priceWidgetsGo cache mode entries rest (setK w1 pk pct)
                  (acc ++ [(ok, fromPctSeed initial pct)])
            | none =>
              let w1 := setK w pk (0 : ℚ)
              let pct := numberInput entries w1 pk (some pctMin)
              priceWidgetsGo cache mode entries rest (setK w1 pk pct)
                (acc ++ [(ok, fromPctSeed initial pct)])

/-- One recorded collateral change: `(balance, decimals)` keyed by market
index (src/liqcalc.py:245-248, 268-271). -/
structure CollChange where
  balance : ℚ
  decimals : Nat
  deriving DecidableEq, Repr

/-- External driftpy SDK functions the repository delegates to; abstract
parameters of the embedding (the spec places their behavior out of scope). -/
structure SDK where
  getTokenAmount : CHCache → UserAccount → Nat → ℤ
  getSpotLiqPrice : CHCache → UserAccount → Nat → ℤ
  getPerpLiqPrice : CHCache → UserAccount → Nat → ℤ
  getHealth : CHCache → UserAccount → ℤ

/-- The collateral-adjustment widget loop (src/liqcalc.py:214-271). Walks the
active spot positions, records the fetched token amount in
`st.session_state.original_token_amounts`, seeds and reads the balance
widgets, and records `collateral_changes`. -/
def collateralWidgetsGo (sdk : SDK) (cache : CHCache) (uAcct : UserAccount)
    (mode : Mode) (entries : List (String × ℚ)) :
    List SpotPosition → List (String × ℚ) → List (Nat × ℤ) → List (Nat × CollChange) →
    Except (String × List (String × ℚ) × List (Nat × ℤ))
      (List (String × ℚ) × List (Nat × ℤ) × List (Nat × CollChange))
  | [], w, am, acc => .ok (w, am, acc)
  | pos :: rest, w, am, acc =>
    match findSpotMarket cache pos.market_index with
    | none => .error ("AttributeError: spot market account not found", w, am)
    | some m =>
      let tokens := sdk.getTokenAmount cache uAcct pos.market_index
      let initialUi : ℚ := (tokens : ℚ) / ((10 : ℚ) ^ m.decimals)
      let am1 := setK am pos.market_index tokens
      let vk := "balance_value_" ++ toString pos.market_index
      let pk := "balance_pct_change_" ++ toString pos.market_index
      match mode with
      | Mode.value =>
        let w1 := match lookupK w vk with
          | some _ => w
          | none =>
            match lookupK w pk with
            | some p => setK w vk (fromPctSeed initialUi p)
            | none => setK w vk initialUi
        let nb := numberInput entries w1 vk none
        collateralWidgetsGo sdk cache uAcct mode entries rest (setK w1 vk nb) am1
          (acc ++ [(pos.market_index, ⟨nb, m.decimals⟩)])
      | Mode.percentage =>
        match lookupK w pk with
        | some _ =>
          let pct := numberInput entries w pk (some pctMin)
          collateralWidgetsGo sdk cache uAcct mode entries rest (setK w pk pct) am1
            (acc ++ [(pos.market_index, ⟨fromPctSeed initialUi pct, m.decimals⟩)])
        | none =>
          match lookupK w vk with
          | some v =>
            if initialUi = 0 then
              .error ("ZeroDivisionError: division by zero", w, am1)
            else
              let w1 := setK w pk (toPctSeed v initialUi)
              let pct := numberInput entries w1 pk (some pctMin)
              collateralWidgetsGo sdk cache uAcct mode entries rest (setK w1 pk pct) am1
                (acc ++ [(pos.market_index, ⟨fromPctSeed initialUi pct, m.decimals⟩)])
          | none =>
            let w1 := setK w pk (0 : ℚ)
            let pct := numberInput entries w1 pk (some pctMin)
            collateralWidgetsGo sdk cache uAcct mode entries rest (setK w1 pk pct) am1
              (acc ++ [(pos.market_index, ⟨fromPctSeed initialUi pct, m.decimals⟩)])

/-- The price-update loop (src/liqcalc.py:278-282): for each recorded change
whose oracle key is present in `cache["oracle_price_data"]`, overwrite the
record's `data.price` with `int(new_price * 1e6)`. -/
def applyPriceChanges (c : CHCache) : List (OracleId × ℚ) → CHCache
  | [] => c
  | (k, p) :: rest =>
    applyPriceChanges
      { c with
        oracle_price_data :=
          updK c.oracle_price_data k
            (fun r => { r with data := { r.data with price := ratTrunc (p * 1000000) } }) }
      rest

/-- src/liqcalc.py:305-309: the new `scaled_balance`,
`int(scaled_balance * (new_tokens / original_tokens))` guarded by
`original_tokens != 0` (else `0`). -/
def newScaledBalance (scaled newTokens origTokens : ℤ) : ℤ :=
  if origTokens ≠ 0 then
    ratTrunc ((scaled : ℚ) * ((newTokens : ℚ) / (origTokens : ℚ)))
  else 0

/-- The collateral-update loop (src/liqcalc.py:291-324): rebuild the user's
spot position list, replacing each position that has a recorded change with
a copy whose `scaled_balance` is rescaled; a missing
`original_token_amounts` entry would be a Python `KeyError`. -/
def applyCollateralChanges (changes : List (Nat × CollChange))
    (amounts : List (Nat × ℤ)) :
    List SpotPosition → Except String (List SpotPosition)
  | [] => .ok []
  | pos :: rest =>
    match lookupK changes pos.market_index with
    | none =>
      match applyCollateralChanges changes amounts rest with
      | .error e => .error e
      | .ok l => .ok (pos :: l)
    | some ch =>
      match lookupK amounts pos.market_index with
      | none => .error "KeyError: original_token_amounts"
      | some origTokens =>
        let newTokens := ratTrunc (ch.balance * ((10 : ℚ) ^ ch.decimals))
        match applyCollateralChanges changes amounts rest with
        | .error e => .error e
        | .ok l =>
          .ok ({ pos with
                 scaled_balance := newScaledBalance pos.scaled_balance newTokens origTokens } :: l)

/-- One row of the spot-positions table (src/liqcalc.py:347-358); display
rounding is presentation-only and not modelled. -/
structure SpotRow where
  name : String
  balance : ℚ
  netValue : ℚ
  price : ℚ
  liqPrice : ℚ
  deriving DecidableEq, Repr

/-- One row of the perp-positions table (src/liqcalc.py:369-380). -/
structure PerpRow where
  name : String
  baseSize : ℚ
  notional : ℚ
  price : ℚ
  liqPrice : ℚ
  deriving DecidableEq, Repr

/-- The spot result loop (src/liqcalc.py:337-358): iterates the active
positions captured before the overrides, against the (possibly overridden)
cache and user account; positions whose oracle record is missing are
skipped (`if oracle_price_data:`). -/
def buildSpotRows (sdk : SDK) (cache : CHCache) (uAcct : UserAccount) :
    List SpotPosition → Except String (List SpotRow)
  | [] => .ok []
  | pos :: rest =>
    match findSpotMarket cache pos.market_index with
    | none => .error "AttributeError: spot market account not found"
    | some m =>
      let tokens := sdk.getTokenAmount cache uAcct pos.market_index
      match getOracleDataForSpotMarket cache pos.market_index with
      | none => buildSpotRows sdk cache uAcct rest
      | some od =>
        let oraclePrice : ℚ := (od.price : ℚ) / 1000000
        let balance : ℚ := (tokens : ℚ) / ((10 : ℚ) ^ m.decimals)
        match buildSpotRows sdk cache uAcct rest with
        | .error e => .error e
        | .ok l =>
          .ok (⟨m.name, balance, balance * oraclePrice, oraclePrice,
                (sdk.getSpotLiqPrice cache uAcct pos.market_index : ℚ) / 1000000⟩ :: l)

/-- The perp result loop (src/liqcalc.py:361-380). -/
def buildPerpRows (sdk : SDK) (cache : CHCache) (uAcct : UserAccount) :
    List PerpPosition → Except String (List PerpRow)
  | [] => .ok []
  | pos :: rest =>
    match findPerpMarket cache pos.market_index with
    | none => .error "AttributeError: perp market account not found"
    | some m =>
      match getOracleDataForPerpMarket cache pos.market_index with
      | none => buildPerpRows sdk cache uAcct rest
      | some od =>
        let oraclePrice : ℚ := (od.price : ℚ) / 1000000
        let baseSize : ℚ := (pos.base_asset_amount : ℚ) / 1000000000
        match buildPerpRows sdk cache uAcct rest with
        | .error e => .error e
        | .ok l =>
          .ok (⟨m.name, baseSize, baseSize * oraclePrice, oraclePrice,
                (sdk.getPerpLiqPrice cache uAcct pos.market_index : ℚ) / 1000000⟩ :: l)

/-- What one render pass displays (src/liqcalc.py:144-436): the per-oracle
price widgets, the two tables and the health metric. -/
structure Output where
  priceOracles : List OracleId
  spotRows : List SpotRow
  perpRows : List PerpRow
  health : ℤ
  deriving DecidableEq, Repr

/-- The external world one render pass observes: RPC fetch results and
whether `Pubkey.from_string` accepts the address (it raises otherwise,
src/liqcalc.py:42). `userStatsFetch` is the `UserStats` fetch of
src/liqcalc.py:62-64 (`ok` carries `number_of_sub_accounts_created`;
`error` models the raised exception caught at src/liqcalc.py:65).
`userSnapFetch = none` models a falsy `user_and_slot` after
`update_cache`. -/
structure World where
  chCacheFetch : CHCache
  userStatsFetch : Except String Nat
  userSnapFetch : Option UserAndSlot
  pubkeyValid : Bool

/-- The operator's input for one render pass: the address text, the
subaccount selection, a fresh adjustment-mode choice (if any), and fresh
numeric widget entries keyed by widget key. -/
structure Input where
  authority : String
  subChoice : Nat
  modeEntry : Option Mode
  entries : List (String × ℚ)

/-- Everything a render pass is parameterised by. -/
structure Cfg where
  world : World
  input : Input
  sdk : SDK

/-- How one render pass ends: a full render, an early return after a
user-visible message (`st.warning`/`st.error`/`st.info`, `""` for the
silent empty-address return), or an uncaught exception propagating out of
`liqcalc`. Session state and the heaps survive in every case. -/
inductive PassResult where
  | rendered (sess : SessionState) (heaps : Heaps) (out : Output)
  | halted (sess : SessionState) (heaps : Heaps) (msg : String)
  | raised (sess : SessionState) (heaps : Heaps) (msg : String)

def PassResult.sessOf : PassResult → SessionState
  | .rendered s _ _ => s
  | .halted s _ _ => s
  | .raised s _ _ => s

def PassResult.heapsOf : PassResult → Heaps
  | .rendered _ h _ => h
  | .halted _ h _ => h
  | .raised _ h _ => h

def PassResult.outOf : PassResult → Option Output
  | .rendered _ _ o => some o
  | _ => none

/-- The message a `halted` pass displayed, `none` otherwise. -/
def PassResult.msgOf : PassResult → Option String
  | .halted _ _ m => some m
  | _ => none

/-- The pass-local program state after the setup phase: session state, the
heaps, the clearing house's working cache reference (src/liqcalc.py:53) and
the user subscriber's working snapshot reference (src/liqcalc.py:101;
`none` models Python `None`). -/
structure PState where
  sess : SessionState
  heaps : Heaps
  chRef : Nat
  userRef : Option Nat

/-- Message of src/liqcalc.py:29. -/
def shortAddressMsg : String := "Please enter a valid authority address"

/-- Message of src/liqcalc.py:66. -/
def fetchErrorMsg : String := "Error fetching account. Please check the authority address."

/-- Message of src/liqcalc.py:97. -/
def noDataMsg : String := "No data found for this subaccount"

/-- Message of src/liqcalc.py:109. -/
def noPositionsMsg : String := "No active positions found for this account"

/-- src/liqcalc.py:100-103: the working deep copy of the session-stored
user snapshot into the subscriber (deepcopy of Python `None` is `None`;
a missing session key would raise). -/
def setupFinish (chRef : Nat) (sess3 : SessionState) (hp3 : Heaps) :
    Except PassResult PState :=
  match sess3.user_and_slot with
  | none => .error (.raised sess3 hp3 "AttributeError: user_and_slot")
  | some none => .ok ⟨sess3, hp3, chRef, none⟩
  | some (some ru) =>
    match getUS hp3 ru with
    | none => .error (.raised sess3 hp3 "dangling user_and_slot reference")
    | some uval =>
      let a3 := allocUS hp3 uval
      .ok ⟨sess3, a3.1, chRef, some a3.2⟩

/-- src/liqcalc.py:34-41: on an authority change, record the new authority
and pop both cached snapshots and the subaccount choice. -/
def invalidateOnAuthorityChange (auth : String) (sess0 : SessionState) : SessionState :=
  if sess0.current_authority = some auth then sess0
  else { sess0 with
         current_authority := some auth,
         clearing_house_cache := none,
         user_and_slot := none,
         subaccount := none }

/-- src/liqcalc.py:45-50: fetch and session-store the market cache when it
is not already cached. -/
def ensureMarketCache (world : World) (sess1 : SessionState) (hp0 : Heaps) :
    SessionState × Heaps :=
  match sess1.clearing_house_cache with
  | some _ => (sess1, hp0)
  | none =>
    let a := allocCH hp0 world.chCacheFetch
    ({ sess1 with clearing_house_cache := some a.2 }, a.1)

/-- src/liqcalc.py:52-103: the working deep copy of the session-stored
market cache, the user-stats fetch, subaccount selection, and the
subaccount-change user refetch with the widget-key purge. -/
def setupStats (cfg : Cfg) (sess2 : SessionState) (hp1 : Heaps) :
    Except PassResult PState :=
  -- src/liqcalc.py:52-55
  match sess2.clearing_house_cache with
  | none => .error (.raised sess2 hp1 "KeyError: clearing_house_cache")
  | some rc =>
  match getCH hp1 rc with
  | none => .error (.raised sess2 hp1 "dangling clearing_house_cache reference")
  | some cacheVal =>
  let a1 := allocCH hp1 cacheVal
  let hp2 := a1.1
  let chRef := a1.2
  -- src/liqcalc.py:58-67
  match cfg.world.userStatsFetch with
  | .error _ => .error (.halted sess2 hp2 fetchErrorMsg)
  | .ok nSub =>
  -- src/liqcalc.py:68-77; with zero subaccounts the selectbox yields None
  -- and the user-account PDA derivation raises
  if nSub = 0 then .error (.raised sess2 hp2 "TypeError: subaccount is None")
  else
  let sel := cfg.input.subChoice % nSub
  -- src/liqcalc.py:85-98: the user refetch, session commit, widget-key
  -- purge, and the falsy-snapshot early return, all inside the
  -- changed-subaccount block
  if sess2.subaccount = some sel then setupFinish chRef sess2 hp2
  else
    match cfg.world.userSnapFetch with
    | none =>
      .error (.halted
        { sess2 with
          subaccount := some sel,
          user_and_slot := some none,
          widgets := eraseOverrideKeys sess2.widgets } hp2 noDataMsg)
    | some snap =>
      let a2 := allocUS hp2 snap
      setupFinish chRef
        { sess2 with
          subaccount := some sel,
          user_and_slot := some (some a2.2),
          widgets := eraseOverrideKeys sess2.widgets } a2.1

/-- src/liqcalc.py:21-103: the address gate, the authority-change
invalidation, market-cache fetch and working deep copy, the user-stats
fetch, subaccount selection, the subaccount-change user refetch with the
widget-key purge, and the working deep copy of the user snapshot.
`Except.error` is an early end of the pass. -/
def setupPhase (cfg : Cfg) (sess0 : SessionState) (hp0 : Heaps) :
    Except PassResult PState :=
  -- src/liqcalc.py:24-32
  if cfg.input.authority = "" then .error (.halted sess0 hp0 "")
  else if cfg.input.authority.length < 5 then .error (.halted sess0 hp0 shortAddressMsg)
  else
  -- src/liqcalc.py:34-41
  let sess1 := invalidateOnAuthorityChange cfg.input.authority sess0
  -- src/liqcalc.py:42
  if cfg.world.pubkeyValid = false then
    .error (.raised sess1 hp0 "ValueError: invalid pubkey string")
  else
  -- src/liqcalc.py:45-50
  let s2h1 := ensureMarketCache cfg.world sess1 hp0
  setupStats cfg s2h1.1 s2h1.2

/-- src/liqcalc.py:105-436: everything after the setup phase — active
positions, oracle grouping, the adjustment widgets, applying the price and
collateral overrides to the working copies, and the result tables plus the
health metric. -/
def mainPhase (cfg : Cfg) (p : PState) : PassResult :=
  -- src/liqcalc.py:105-106: a None working snapshot raises here
  match p.userRef with
  | none => .raised p.sess p.heaps "AttributeError: user data is None"
  | some wu =>
  match getUS p.heaps wu, getCH p.heaps p.chRef with
  | some uSnap, some cacheVal =>
    let uAcct := uSnap.data
    let spots := activeSpotPositions uAcct
    let perps := activePerpPositions uAcct
    -- src/liqcalc.py:108-110
    if spots = [] ∧ perps = [] then .halted p.sess p.heaps noPositionsMsg
    else
    -- src/liqcalc.py:112-142
    match buildOracleMarkets cacheVal perps spots with
    | .error e => .raised p.sess p.heaps e
    | .ok gd =>
      let groups := gd.1
      -- src/liqcalc.py:145-150: the mode radio, persisted in session state
      let mode := cfg.input.modeEntry.getD (p.sess.adjustment_mode.getD Mode.value)
      let sessA := { p.sess with adjustment_mode := some mode }
      -- src/liqcalc.py:156-206
      match priceWidgetsGo cacheVal mode cfg.input.entries groups sessA.widgets [] with
      | .error ew => .raised { sessA with widgets := ew.2 } p.heaps ew.1
      | .ok wpc =>
        let w1 := wpc.1
        let priceChanges := wpc.2
        -- src/liqcalc.py:214-271
        match collateralWidgetsGo cfg.sdk cacheVal uAcct mode cfg.input.entries
            spots w1 sessA.original_token_amounts [] with
        | .error ewa =>
          .raised { sessA with widgets := ewa.2.1, original_token_amounts := ewa.2.2 }
            p.heaps ewa.1
        | .ok wac =>
          let w2 := wac.1
          let amounts := wac.2.1
          let collChanges := wac.2.2
          let sessB := { sessA with widgets := w2, original_token_amounts := amounts }
          -- src/liqcalc.py:273-287: deep-copy the working cache, overwrite
          -- the changed oracle records, point the client at the copy
          let cacheVal2 :=
            if priceChanges = [] then cacheVal
            else applyPriceChanges cacheVal priceChanges
          let hp1 :=
            if priceChanges = [] then p.heaps
            else (allocCH p.heaps (applyPriceChanges cacheVal priceChanges)).1
          -- src/liqcalc.py:289-327: rebuild the spot positions and assign
          -- them into the working user snapshot object
          match
            (if collChanges = [] then Except.ok (Option.none)
             else (applyCollateralChanges collChanges amounts uAcct.spot_positions).map some) with
          | .error e => .raised sessB hp1 e
          | .ok onew =>
            let uSnap2 :=
              match onew with
              | none => uSnap
              | some ps => { uSnap with data := { uSnap.data with spot_positions := ps } }
            let hp2 :=
              match onew with
              | none => hp1
              | some ps =>
                setUS hp1 wu { uSnap with data := { uSnap.data with spot_positions := ps } }
            let uAcct2 := uSnap2.data
            -- src/liqcalc.py:329-436
            match buildSpotRows cfg.sdk cacheVal2 uAcct2 spots with
            | .error e => .raised sessB hp2 e
            | .ok srows =>
              match buildPerpRows cfg.sdk cacheVal2 uAcct2 perps with
              | .error e => .raised sessB hp2 e
              | .ok prows =>
                .rendered sessB hp2
                  ⟨groups.map Prod.fst, srows, prows, cfg.sdk.getHealth cacheVal2 uAcct2⟩
  | _, _ => .raised p.sess p.heaps "dangling working reference"

/-- One full render pass of `liqcalc` (src/liqcalc.py:21-436). -/
def liqcalc (cfg : Cfg) (sess : SessionState) (hp : Heaps) : PassResult :=
  match setupPhase cfg sess hp with
  | .error r => r
  | .ok p => mainPhase cfg p

/-- src/app.py:14-47: `main` checks the RPC-endpoint environment variable,
then runs one `liqcalc` pass inside a catch-all `try`/`except` that turns
any exception into an error message with the trace. -/
def mainRun (envUrl : Option String) (cfg : Cfg) (sess : SessionState)
    (hp : Heaps) : PassResult :=
  match envUrl with
  | none => .halted sess hp "Missing ANCHOR_PROVIDER_URL environment variable"
  | some _ =>
    match liqcalc cfg sess hp with
    | .raised s h e => .halted s h ("App error: " ++ e)
    | r => r

/-- Field-level relation between an original spot position and its
replacement in the collateral-update loop: untouched when no change is
recorded for its market index, otherwise every field except
`scaled_balance` is copied over (src/liqcalc.py:312-321). -/
def collFrame (changes : List (Nat × CollChange)) (p q : SpotPosition) : Prop :=
  (lookupK changes p.market_index = none → q = p) ∧
  (lookupK changes p.market_index ≠ none →
    q.open_bids = p.open_bids ∧ q.open_asks = p.open_asks ∧
    q.cumulative_deposits = p.cumulative_deposits ∧
    q.market_index = p.market_index ∧ q.balance_type = p.balance_type ∧
    q.open_orders = p.open_orders ∧ q.padding = p.padding)

/-- The setup phase's continuation state, `none` when the pass ended early. -/
def setupOk (cfg : Cfg) (sess : SessionState) (hp : Heaps) : Option PState :=
  match setupPhase cfg sess hp with
  | .ok p => some p
  | .error _ => none

/-! Concrete scenario data for the end-to-end perp claims: one perp
position of base size 2.5 (base units `2.5e9`) whose market reads oracle
`(7, 1)` priced at `$100` (fixed-point `100e6`). -/

def sPerpMarket : PerpMarket := ⟨0, "SOL-PERP", 7, 1⟩

def sCache : CHCache := ⟨[((7, 1), ⟨⟨100000000⟩, 5⟩)], [], [sPerpMarket]⟩

/-- `sCache` after a `$80` price override on oracle `(7, 1)`. -/
def sCache80 : CHCache := ⟨[((7, 1), ⟨⟨80000000⟩, 5⟩)], [], [sPerpMarket]⟩

def sUser : UserAccount := ⟨[], [⟨0, 2500000000⟩]⟩

def sWorld : World := ⟨sCache, .ok 1, some ⟨sUser, 3⟩, true⟩

/-- The unmodified scenario: fresh session, percentage mode, a `0%` delta
(the widget's seeded default). -/
def sCfg0 (sdk : SDK) : Cfg := ⟨sWorld, ⟨"ABCDE", 0, some Mode.percentage, []⟩, sdk⟩

/-- The override scenario: value mode with `$80` entered for oracle `(7, 1)`. -/
def sCfg80 (sdk : SDK) : Cfg := ⟨sWorld, ⟨"ABCDE", 0, none, [("price_value_7-1", 80)]⟩, sdk⟩

/-- A concrete SDK instantiation used by witnesses. -/
def wSDK : SDK := ⟨fun _ _ _ => 0, fun _ _ _ => 7, fun _ _ _ => 11, fun _ _ => 42⟩

/-! Concrete data witnessing what a subaccount-only target change does to
the session-cached market snapshot. -/

def cxCacheOld : CHCache := ⟨[((7, 1), ⟨⟨111000000⟩, 5⟩)], [], [sPerpMarket]⟩

def cxCacheFresh : CHCache := ⟨[((7, 1), ⟨⟨222000000⟩, 6⟩)], [], [sPerpMarket]⟩

def cxSess : SessionState :=
  { current_authority := some "ABCDE",
    clearing_house_cache := some 0,
    user_and_slot := some (some 0),
    subaccount := some 0,
    adjustment_mode := some Mode.value,
    widgets := [("price_value_7-1", 50)],
    original_token_amounts := [] }

def cxHp : Heaps := ⟨[cxCacheOld], [⟨sUser, 3⟩]⟩

/-- Same authority, subaccount switched from 0 to 1. -/
def cxCfg : Cfg :=
  ⟨⟨cxCacheFresh, .ok 2, some ⟨sUser, 9⟩, true⟩, ⟨"ABCDE", 1, none, []⟩, wSDK⟩

/-! ## Helper lemmas -/

theorem ratTrunc_intCast (k : ℤ) : ratTrunc (k : ℚ) = k := by
  unfold ratTrunc
  rcases le_or_lt 0 (k : ℚ) with h | h
  · rw [if_pos h]
    have h0 : 0 ≤ k := by exact_mod_cast h
    simp only [Rat.num_intCast, Rat.den_intCast, Nat.div_one]
    omega
  · rw [if_neg (not_le.mpr h)]
    have h0 : k < 0 := by exact_mod_cast h
    simp only [Rat.num_intCast, Rat.den_intCast, Nat.div_one]
    omega

/-! ## C2 -/

/-- C2: a collateral override rescales `scaled_balance` by exactly the
ratio `new_tokens / original_tokens` (under Python's `int(...)` truncation,
`ratTrunc`; exactly whenever the product is divisible), and a zero
`original_tokens` yields balance `0` with no division. -/
theorem collateral_rescale_exact (s n o : ℤ) :
    (o = 0 → newScaledBalance s n o = 0) ∧
    (o ≠ 0 → newScaledBalance s n o = ratTrunc (((s * n : ℤ) : ℚ) / (o : ℚ))) ∧
    (o ≠ 0 → o ∣ s * n →
      ((newScaledBalance s n o : ℤ) : ℚ) = (s : ℚ) * ((n : ℚ) / (o : ℚ))) := by
  refine ⟨fun h => by simp [newScaledBalance, h], fun h => ?_, fun h hd => ?_⟩
  · simp only [newScaledBalance, if_pos h]
    congr 1
    push_cast
    ring
  · obtain ⟨k, hk⟩ := hd
    have ho : (o : ℚ) ≠ 0 := Int.cast_ne_zero.mpr h
    have hkq : (s : ℚ) * (n : ℚ) = (o : ℚ) * (k : ℚ) := by exact_mod_cast hk
    have h1 : (s : ℚ) * ((n : ℚ) / (o : ℚ)) = (k : ℚ) := by
      field_simp
      rw [hkq]
      ring
    have h2 : newScaledBalance s n o = k := by
      simp only [newScaledBalance, if_pos h, h1, ratTrunc_intCast]
    rw [h2, h1]

/-- Witness for C2 at concrete inputs: zero original tokens, and a rescale
of `6` by ratio `3/2`. -/
theorem collateral_rescale_exact_witness :
    newScaledBalance 6 3 0 = 0 ∧ newScaledBalance 6 3 2 = 9 := by
  refine ⟨(collateral_rescale_exact 6 3 0).1 rfl, ?_⟩
  have h9 : ((6 * 3 : ℤ) : ℚ) / ((2 : ℤ) : ℚ) = ((9 : ℤ) : ℚ) := by norm_num
  rw [(collateral_rescale_exact 6 3 2).2.1 (by norm_num), h9, ratTrunc_intCast]

/-! ## C3 -/

/-- C3: the value/percentage mode-switch conversions used by both the price
widgets and the balance widgets round-trip exactly over the rationals
(hence within floating-point tolerance in the Python floats), for any
nonzero original (at a zero original the conversion divides by zero). -/
theorem mode_switch_round_trip (v p orig : ℚ) (h : orig ≠ 0) :
    fromPctSeed orig (toPctSeed v orig) = v ∧
    toPctSeed (fromPctSeed orig p) orig = p := by
  unfold fromPctSeed toPctSeed
  constructor <;> field_simp <;> ring

/-- Witness for C3: original `100`, value `80`, percentage `7`. -/
theorem mode_switch_round_trip_witness :
    fromPctSeed 100 (toPctSeed 80 100) = 80 ∧ toPctSeed (fromPctSeed 100 7) 100 = 7 :=
  mode_switch_round_trip 80 7 100 (by norm_num)

/-! ## C7 -/

/-- C7: every percentage widget floors the entered delta at `-100`
(`pctMin`), and any delta at or above the floor applied to a non-negative
original value yields a non-negative simulated value. -/
theorem pct_floor_result_nonneg :
    (∀ entries sess k, pctMin ≤ numberInput entries sess k (some pctMin)) ∧
    (∀ orig pct : ℚ, pctMin ≤ pct → 0 ≤ orig → 0 ≤ fromPctSeed orig pct) := by
  constructor
  · intro entries sess k
    simp only [numberInput]
    exact le_max_left _ _
  · intro orig pct h1 h2
    have h1' : (-100 : ℚ) ≤ pct := h1
    have h3 : (0 : ℚ) ≤ 1 + pct / 100 := by linarith
    exact mul_nonneg h2 h3

/-- Witness for C7: the floor itself applied to original `100` gives `0`. -/
theorem pct_floor_result_nonneg_witness :
    pctMin ≤ numberInput [] [] "k" (some pctMin) ∧
    (0 : ℚ) ≤ fromPctSeed 100 (-100) :=
  ⟨pct_floor_result_nonneg.1 [] [] "k",
   pct_floor_result_nonneg.2 100 (-100) (by norm_num [pctMin]) (by norm_num)⟩

/-! ## C8 -/

/-- C8: a non-empty address shorter than 5 characters ends the pass with
the user-visible warning of src/liqcalc.py:29, leaving session state and
the heaps untouched and raising nothing. -/
theorem short_address_warns (cfg : Cfg) (sess : SessionState) (hp : Heaps)
    (h1 : ¬ cfg.input.authority = "") (h2 : cfg.input.authority.length < 5) :
    liqcalc cfg sess hp = .halted sess hp shortAddressMsg := by
  unfold liqcalc setupPhase
  rw [if_neg h1, if_pos h2]

/-- Witness for C8 at the concrete address `"abc"`. -/
theorem short_address_warns_witness :
    liqcalc ⟨sWorld, ⟨"abc", 0, none, []⟩, wSDK⟩ {} Heaps.empty =
      .halted {} Heaps.empty shortAddressMsg :=
  short_address_warns _ _ _ (by decide) (by decide)

/-! ## C6 -/

theorem buildPerpRows_notional (sdk : SDK) (cache : CHCache) (uAcct : UserAccount)
    (ps : List PerpPosition) (rows : List PerpRow)
    (h : buildPerpRows sdk cache uAcct ps = .ok rows) :
    ∀ r ∈ rows, r.notional = r.baseSize * r.price := by
  induction ps generalizing rows with
  | nil =>
    simp only [buildPerpRows] at h
    cases h
    simp
  | cons p t ih =>
    cases hm : findPerpMarket cache p.market_index with
    | none => simp [buildPerpRows, hm] at h
    | some m =>
      cases ho : getOracleDataForPerpMarket cache p.market_index with
      | none =>
        simp only [buildPerpRows, hm, ho] at h
        exact ih rows h
      | some od =>
        cases hrec : buildPerpRows sdk cache uAcct t with
        | error e => simp [buildPerpRows, hm, ho, hrec] at h
        | ok l =>
          simp only [buildPerpRows, hm, ho, hrec, Except.ok.injEq] at h
          subst h
          intro r hr
          rcases List.mem_cons.mp hr with hr | hr
          · subst hr; rfl
          · exact ih l hrec r hr

set_option maxHeartbeats 2000000 in
/-- C6: every perp row's notional is its base size (base units over `1e9`)
times its (possibly overridden) oracle price (fixed point over `1e6`); in
the concrete scenario — one perp position of base size `2.5`, oracle price
`$100` — a pass with a `0%` override renders notional `$250` at price
`$100` with the liquidation price exactly whatever the external SDK
returns on the unmodified snapshot, and a pass overriding the price to
`$80` renders notional `2.5 * 80 = $200` with the liquidation price taken
from the SDK on the overridden snapshot. -/
theorem perp_notional_end_to_end (sdk : SDK) :
    (∀ cache uAcct ps rows, buildPerpRows sdk cache uAcct ps = Except.ok rows →
      ∀ r ∈ rows, r.notional = r.baseSize * r.price) ∧
    (liqcalc (sCfg0 sdk) {} Heaps.empty).outOf =
      some ⟨[(7, 1)], [], [⟨"SOL-PERP", 5/2, 250, 100,
        (sdk.getPerpLiqPrice sCache sUser 0 : ℚ) / 1000000⟩], sdk.getHealth sCache sUser⟩ ∧
    (liqcalc (sCfg80 sdk) {} Heaps.empty).outOf =
      some ⟨[(7, 1)], [], [⟨"SOL-PERP", 5/2, 200, 80,
        (sdk.getPerpLiqPrice sCache80 sUser 0 : ℚ) / 1000000⟩], sdk.getHealth sCache80 sUser⟩ := by
  refine ⟨fun cache uAcct ps rows h => buildPerpRows_notional sdk cache uAcct ps rows h, ?_, ?_⟩ <;>
  · simp +decide [liqcalc, setupPhase, setupStats, setupFinish, invalidateOnAuthorityChange,
      ensureMarketCache, mainPhase, sCfg0, sCfg80, sWorld, sCache, sCache80,
      sUser, sPerpMarket, allocCH, allocUS, getCH, getUS, setUS, Heaps.empty, eraseOverrideKeys,
      activeSpotPositions, activePerpPositions, buildOracleMarkets, groupPerps, groupSpots,
      addToGroups, findPerpMarket, findSpotMarket, perpOracleId, spotOracleId,
      getOracleDataForPerpMarket, getOracleDataForSpotMarket, lookupK, setK, updK,
      priceWidgetsGo, collateralWidgetsGo, numberInput, oidStr, fromPctSeed, toPctSeed,
      pctMin, applyPriceChanges, ratTrunc, buildSpotRows, buildPerpRows,
      applyCollateralChanges, PassResult.outOf]
    norm_num

/-- Witness for C6: the notional identity applied to the concretely built
row of the scenario. -/
theorem perp_notional_end_to_end_witness :
    (PerpRow.mk "SOL-PERP" (5/2) 250 100 ((11 : ℚ) / 1000000)).notional =
      (PerpRow.mk "SOL-PERP" (5/2) 250 100 ((11 : ℚ) / 1000000)).baseSize *
        (PerpRow.mk "SOL-PERP" (5/2) 250 100 ((11 : ℚ) / 1000000)).price :=
  (perp_notional_end_to_end wSDK).1 sCache sUser [⟨0, 2500000000⟩] _
    (by
      simp +decide [buildPerpRows, findPerpMarket, getOracleDataForPerpMarket, sCache,
        sUser, sPerpMarket, perpOracleId, lookupK, wSDK]
      norm_num)
    _ (List.mem_singleton.mpr rfl)

/-! ## C4 -/

theorem lookupK_updK_self {κ α : Type} [DecidableEq κ] (l : List (κ × α)) (k : κ)
    (f : α → α) : lookupK (updK l k f) k = (lookupK l k).map f := by
  induction l with
  | nil => simp [lookupK, updK]
  | cons p t ih =>
    obtain ⟨k', v⟩ := p
    by_cases h : k' = k
    · subst h; simp [lookupK, updK]
    · simp [lookupK, updK, h, ih]

theorem lookupK_updK_ne {κ α : Type} [DecidableEq κ] (l : List (κ × α)) (k q : κ)
    (f : α → α) (h : k ≠ q) : lookupK (updK l k f) q = lookupK l q := by
  induction l with
  | nil => simp [lookupK, updK]
  | cons p t ih =>
    obtain ⟨k', v⟩ := p
    rw [updK]
    by_cases h1 : k' = k
    · subst h1
      rw [if_pos rfl, lookupK, lookupK, if_neg h, if_neg h]
    · rw [if_neg h1, lookupK, lookupK]
      by_cases h2 : k' = q
      · rw [if_pos h2, if_pos h2]
      · rw [if_neg h2, if_neg h2]
        exact ih

theorem applyPriceChanges_perp_markets (c : CHCache) (l : List (OracleId × ℚ)) :
    (applyPriceChanges c l).perp_markets = c.perp_markets := by
  induction l generalizing c with
  | nil => rfl
  | cons p t ih => simpa [applyPriceChanges] using ih _

theorem applyPriceChanges_spot_markets (c : CHCache) (l : List (OracleId × ℚ)) :
    (applyPriceChanges c l).spot_markets = c.spot_markets := by
  induction l generalizing c with
  | nil => rfl
  | cons p t ih => simpa [applyPriceChanges] using ih _

theorem applyPriceChanges_lookup_of_not_mem (c : CHCache) (l : List (OracleId × ℚ))
    (q : OracleId) (h : q ∉ l.map Prod.fst) :
    lookupK (applyPriceChanges c l).oracle_price_data q =
      lookupK c.oracle_price_data q := by
  induction l generalizing c with
  | nil => rfl
  | cons p t ih =>
    obtain ⟨k, v⟩ := p
    simp only [List.map_cons, List.mem_cons, not_or] at h
    rw [applyPriceChanges, ih _ h.2]
    exact lookupK_updK_ne _ _ _ _ (fun hk => h.1 hk.symm)

theorem applyPriceChanges_lookup_of_mem (c : CHCache) (l : List (OracleId × ℚ))
    (q : OracleId) (p : ℚ) (hnd : (l.map Prod.fst).Nodup) (hm : (q, p) ∈ l) :
    lookupK (applyPriceChanges c l).oracle_price_data q =
      (lookupK c.oracle_price_data q).map
        (fun r => ⟨⟨ratTrunc (p * 1000000)⟩, r.slot⟩) := by
  induction l generalizing c with
  | nil => cases hm
  | cons hd t ih =>
    obtain ⟨k, v⟩ := hd
    simp only [List.map_cons, List.nodup_cons] at hnd
    rcases List.mem_cons.mp hm with hm1 | hm1
    · obtain ⟨hk, hv⟩ := Prod.mk.injEq .. ▸ hm1
      cases hm1
      have hnot : q ∉ t.map Prod.fst := hnd.1
      rw [applyPriceChanges, applyPriceChanges_lookup_of_not_mem _ _ _ hnot,
        lookupK_updK_self]
    · have hq : q ∈ t.map Prod.fst := List.mem_map.mpr ⟨(q, p), hm1, rfl⟩
      have hk : k ≠ q := fun hk => hnd.1 (hk ▸ hq)
      rw [applyPriceChanges, ih _ hnd.2 hm1]
      congr 1
      exact lookupK_updK_ne _ _ _ _ hk

theorem addToGroups_fst (gs : List (OracleId × List MarketRef)) (k : OracleId)
    (m : MarketRef) :
    (addToGroups gs k m).map Prod.fst =
      if k ∈ gs.map Prod.fst then gs.map Prod.fst else gs.map Prod.fst ++ [k] := by
  induction gs with
  | nil => simp [addToGroups]
  | cons hd t ih =>
    obtain ⟨k', ms⟩ := hd
    by_cases h : k' = k
    · subst h; simp [addToGroups]
    · rw [addToGroups, if_neg h]
      simp only [List.map_cons]
      rw [ih]
      by_cases hk : k ∈ t.map Prod.fst
      · rw [if_pos hk, if_pos (List.mem_cons_of_mem _ hk)]
      · have hnotc : k ∉ k' :: t.map Prod.fst := by
          simp only [List.mem_cons, not_or]
          exact ⟨fun he => h he.symm, hk⟩
        rw [if_neg hk, if_neg hnotc, List.cons_append]

theorem addToGroups_nodup (gs : List (OracleId × List MarketRef)) (k : OracleId)
    (m : MarketRef) (h : (gs.map Prod.fst).Nodup) :
    ((addToGroups gs k m).map Prod.fst).Nodup := by
  rw [addToGroups_fst]
  split
  · exact h
  · next hk => simp [List.nodup_append, h, hk]

theorem groupPerps_nodup (c : CHCache) (ps : List PerpPosition)
    (gs gs' : List (OracleId × List MarketRef)) (h : (gs.map Prod.fst).Nodup)
    (he : groupPerps c ps gs = .ok gs') : (gs'.map Prod.fst).Nodup := by
  induction ps generalizing gs with
  | nil =>
    simp only [groupPerps, Except.ok.injEq] at he
    exact he ▸ h
  | cons p t ih =>
    cases hm : findPerpMarket c p.market_index with
    | none => simp [groupPerps, hm] at he
    | some m =>
      simp only [groupPerps, hm] at he
      exact ih _ (addToGroups_nodup _ _ _ h) he

theorem groupSpots_nodup (c : CHCache) (ps : List SpotPosition)
    (gs gs' : List (OracleId × List MarketRef)) (d d' : Nat)
    (h : (gs.map Prod.fst).Nodup) (he : groupSpots c ps gs d = .ok (gs', d')) :
    (gs'.map Prod.fst).Nodup := by
  induction ps generalizing gs d with
  | nil =>
    simp only [groupSpots, Except.ok.injEq, Prod.mk.injEq] at he
    exact he.1 ▸ h
  | cons p t ih =>
    cases hm : findSpotMarket c p.market_index with
    | none => simp [groupSpots, hm] at he
    | some m =>
      simp only [groupSpots, hm] at he
      exact ih _ _ (addToGroups_nodup _ _ _ h) he

theorem buildOracleMarkets_nodup (c : CHCache) (perps : List PerpPosition)
    (spots : List SpotPosition) (gs : List (OracleId × List MarketRef)) (d : Nat)
    (he : buildOracleMarkets c perps spots = .ok (gs, d)) :
    (gs.map Prod.fst).Nodup := by
  unfold buildOracleMarkets at he
  cases hp : groupPerps c perps [] with
  | error e => rw [hp] at he; cases he
  | ok gs1 =>
    rw [hp] at he
    exact groupSpots_nodup c spots gs1 gs 0 d
      (groupPerps_nodup c perps [] gs1 (by simp) hp) he

theorem setupFinish_error_outOf (chRef : Nat) (sess : SessionState) (hp : Heaps)
    (r : PassResult) (h : setupFinish chRef sess hp = .error r) : r.outOf = none := by
  unfold setupFinish at h
  split at h
  · cases h; rfl
  · cases h
  · split at h
    · cases h; rfl
    · cases h

theorem setupStats_error_outOf (cfg : Cfg) (sess : SessionState) (hp : Heaps)
    (r : PassResult) (h : setupStats cfg sess hp = .error r) : r.outOf = none := by
  unfold setupStats at h
  cases hcc : sess.clearing_house_cache with
  | none => simp only [hcc] at h; cases h; rfl
  | some rc =>
    simp only [hcc] at h
    cases hg : getCH hp rc with
    | none => simp only [hg] at h; cases h; rfl
    | some cacheVal =>
      simp only [hg] at h
      cases hf : cfg.world.userStatsFetch with
      | error e => simp only [hf] at h; cases h; rfl
      | ok nSub =>
        simp only [hf] at h
        by_cases hn : nSub = 0
        · rw [if_pos hn] at h; cases h; rfl
        · rw [if_neg hn] at h
          by_cases hs : sess.subaccount = some (cfg.input.subChoice % nSub)
          · rw [if_pos hs] at h
            exact setupFinish_error_outOf _ _ _ _ h
          · rw [if_neg hs] at h
            cases hu : cfg.world.userSnapFetch with
            | none => simp only [hu] at h; cases h; rfl
            | some snap =>
              simp only [hu] at h
              exact setupFinish_error_outOf _ _ _ _ h

theorem setupPhase_error_outOf (cfg : Cfg) (sess : SessionState) (hp : Heaps)
    (r : PassResult) (h : setupPhase cfg sess hp = .error r) : r.outOf = none := by
  unfold setupPhase at h
  by_cases h1 : cfg.input.authority = ""
  · rw [if_pos h1] at h; cases h; rfl
  · rw [if_neg h1] at h
    by_cases h2 : cfg.input.authority.length < 5
    · rw [if_pos h2] at h; cases h; rfl
    · rw [if_neg h2] at h
      by_cases h3 : cfg.world.pubkeyValid = false
      · rw [if_pos h3] at h; cases h; rfl
      · rw [if_neg h3] at h
        exact setupStats_error_outOf _ _ _ _ h

theorem mainPhase_nodup (cfg : Cfg) (p : PState) (out : Output)
    (h : (mainPhase cfg p).outOf = some out) : out.priceOracles.Nodup := by
  unfold mainPhase at h
  cases hur : p.userRef with
  | none => simp only [hur, PassResult.outOf] at h; cases h
  | some wu =>
    simp only [hur] at h
    cases hgu : getUS p.heaps wu with
    | none =>
      cases hgc : getCH p.heaps p.chRef <;>
        simp only [hgu, hgc, PassResult.outOf] at h <;> cases h
    | some uSnap =>
      cases hgc : getCH p.heaps p.chRef with
      | none => simp only [hgu, hgc, PassResult.outOf] at h; cases h
      | some cacheVal =>
        simp only [hgu, hgc] at h
        by_cases hpos :
            activeSpotPositions uSnap.data = [] ∧ activePerpPositions uSnap.data = []
        · rw [if_pos hpos] at h
          simp only [PassResult.outOf] at h; cases h
        · rw [if_neg hpos] at h
          cases hgd : buildOracleMarkets cacheVal (activePerpPositions uSnap.data)
              (activeSpotPositions uSnap.data) with
          | error e => simp only [hgd, PassResult.outOf] at h; cases h
          | ok gd =>
            obtain ⟨gs, d⟩ := gd
            simp only [hgd] at h
            cases hpw : priceWidgetsGo cacheVal
                (cfg.input.modeEntry.getD (p.sess.adjustment_mode.getD Mode.value))
                cfg.input.entries gs p.sess.widgets [] with
            | error ew => simp only [hpw, PassResult.outOf] at h; cases h
            | ok wpc =>
              simp only [hpw] at h
              cases hcw : collateralWidgetsGo cfg.sdk cacheVal uSnap.data
                  (cfg.input.modeEntry.getD (p.sess.adjustment_mode.getD Mode.value))
                  cfg.input.entries (activeSpotPositions uSnap.data) wpc.1
                  p.sess.original_token_amounts [] with
              | error ewa => simp only [hcw, PassResult.outOf] at h; cases h
              | ok wac =>
                simp only [hcw] at h
                cases happ :
                    (if wac.2.2 = [] then Except.ok Option.none
                     else (applyCollateralChanges wac.2.2 wac.2.1
                       uSnap.data.spot_positions).map some) with
                | error e => simp only [happ, PassResult.outOf] at h; cases h
                | ok onew =>
                  simp only [happ] at h
                  cases hsr : buildSpotRows cfg.sdk
                      (if wpc.2 = [] then cacheVal else applyPriceChanges cacheVal wpc.2)
                      (match onew with
                       | none => uSnap
                       | some ps =>
                         { uSnap with data := { uSnap.data with spot_positions := ps } }).data
                      (activeSpotPositions uSnap.data) with
                  | error e => simp only [hsr, PassResult.outOf] at h; cases h
                  | ok srows =>
                    simp only [hsr] at h
                    cases hpr : buildPerpRows cfg.sdk
                        (if wpc.2 = [] then cacheVal else applyPriceChanges cacheVal wpc.2)
                        (match onew with
                         | none => uSnap
                         | some ps =>
                           { uSnap with data := { uSnap.data with spot_positions := ps } }).data
                        (activePerpPositions uSnap.data) with
                    | error e => simp only [hpr, PassResult.outOf] at h; cases h
                    | ok prows =>
                      simp only [hpr, PassResult.outOf, Option.some.injEq] at h
                      subst h
                      exact buildOracleMarkets_nodup _ _ _ _ _ hgd

set_option maxHeartbeats 1000000 in
/-- C4: applying a recorded price change `(O, p)` rewrites the oracle
record of `O` (hence the displayed price and the snapshot handed to the
liquidation-price computation) for every perp or spot market whose oracle
id is `O`, leaves the oracle record of every oracle without a recorded
change untouched, writes a record back identically when its recorded
change is the oracle's current price (the widget default), and every
rendered pass shows exactly one price widget per distinct oracle
(`priceOracles` has no duplicates). -/
theorem price_override_oracle_frame (c : CHCache) (changes : List (OracleId × ℚ))
    (O : OracleId) (p : ℚ) :
    ((changes.map Prod.fst).Nodup → (O, p) ∈ changes →
      (∀ idx m od, findPerpMarket c idx = some m → perpOracleId m = O →
        getOracleDataForPerpMarket c idx = some od →
        getOracleDataForPerpMarket (applyPriceChanges c changes) idx =
          some ⟨ratTrunc (p * 1000000)⟩) ∧
      (∀ idx m od, findSpotMarket c idx = some m → spotOracleId m = O →
        getOracleDataForSpotMarket c idx = some od →
        getOracleDataForSpotMarket (applyPriceChanges c changes) idx =
          some ⟨ratTrunc (p * 1000000)⟩)) ∧
    (∀ q, q ∉ changes.map Prod.fst →
      lookupK (applyPriceChanges c changes).oracle_price_data q =
        lookupK c.oracle_price_data q) ∧
    ((changes.map Prod.fst).Nodup → ∀ q r,
      lookupK c.oracle_price_data q = some r →
      (q, ((r.data.price : ℚ) / 1000000)) ∈ changes →
      lookupK (applyPriceChanges c changes).oracle_price_data q = some r) ∧
    (∀ cfg sess hp out, (liqcalc cfg sess hp).outOf = some out →
      out.priceOracles.Nodup) := by
  refine ⟨fun hnd hm => ⟨?_, ?_⟩,
    fun q hq => applyPriceChanges_lookup_of_not_mem c changes q hq, ?_, ?_⟩
  · intro idx m od hfind hoid hod
    have hfind2 : findPerpMarket (applyPriceChanges c changes) idx = some m := by
      unfold findPerpMarket at hfind ⊢
      rw [applyPriceChanges_perp_markets]
      exact hfind
    unfold getOracleDataForPerpMarket at hod ⊢
    rw [hfind2, Option.some_bind', hoid,
      applyPriceChanges_lookup_of_mem c changes O p hnd hm]
    rw [hfind, Option.some_bind', hoid] at hod
    cases hl : lookupK c.oracle_price_data O with
    | none => rw [hl] at hod; cases hod
    | some r => simp
  · intro idx m od hfind hoid hod
    have hfind2 : findSpotMarket (applyPriceChanges c changes) idx = some m := by
      unfold findSpotMarket at hfind ⊢
      rw [applyPriceChanges_spot_markets]
      exact hfind
    unfold getOracleDataForSpotMarket at hod ⊢
    rw [hfind2, Option.some_bind', hoid,
      applyPriceChanges_lookup_of_mem c changes O p hnd hm]
    rw [hfind, Option.some_bind', hoid] at hod
    cases hl : lookupK c.oracle_price_data O with
    | none => rw [hl] at hod; cases hod
    | some r => simp
  · intro hnd q r hl hm
    rw [applyPriceChanges_lookup_of_mem c changes q _ hnd hm, hl]
    obtain ⟨⟨pz⟩, slot⟩ := r
    have hcancel : ((pz : ℚ) / 1000000) * 1000000 = ((pz : ℤ) : ℚ) :=
      div_mul_cancel₀ (pz : ℚ) (by norm_num)
    simp only [hcancel, ratTrunc_intCast]
    rfl
  · intro cfg sess hp out h
    unfold liqcalc at h
    cases hs : setupPhase cfg sess hp with
    | error r =>
      rw [hs] at h
      rw [setupPhase_error_outOf cfg sess hp r hs] at h
      cases h
    | ok ps =>
      rw [hs] at h
      exact mainPhase_nodup cfg ps out h

/-- Witness for C4: the `$80` override on oracle `(7, 1)` in the scenario
cache rewrites that oracle's record for the market that reads it, and
leaves an unrelated oracle id untouched. -/
theorem price_override_oracle_frame_witness :
    getOracleDataForPerpMarket (applyPriceChanges sCache [((7, 1), 80)]) 0 =
      some ⟨ratTrunc (80 * 1000000)⟩ ∧
    lookupK (applyPriceChanges sCache [((7, 1), 80)]).oracle_price_data (9, 9) =
      lookupK sCache.oracle_price_data (9, 9) := by
  refine ⟨((price_override_oracle_frame sCache [((7, 1), 80)] (7, 1) 80).1
    (by simp) (by simp)).1 0 sPerpMarket ⟨100000000⟩ ?_ rfl ?_,
    (price_override_oracle_frame sCache [((7, 1), 80)] (7, 1) 80).2.1 (9, 9) (by simp)⟩
  · simp +decide [findPerpMarket, sCache, sPerpMarket]
  · simp +decide [getOracleDataForPerpMarket, findPerpMarket, sCache, sPerpMarket,
      perpOracleId, lookupK]

/-! ## C10 -/

set_option maxHeartbeats 1000000 in
/-- C10: the collateral-update loop replaces only `scaled_balance`: every
rebuilt position keeps `open_bids`, `open_asks`, `cumulative_deposits`,
`market_index`, `balance_type`, `open_orders` and `padding`, and every
position without a recorded change is passed through unchanged. -/
theorem collateral_override_field_frame (changes : List (Nat × CollChange))
    (amounts : List (Nat × ℤ)) (ps res : List SpotPosition)
    (h : applyCollateralChanges changes amounts ps = .ok res) :
    List.Forall₂ (collFrame changes) ps res := by
  induction ps generalizing res with
  | nil =>
    simp only [applyCollateralChanges, Except.ok.injEq] at h
    subst h
    exact List.Forall₂.nil
  | cons pos t ih =>
    cases hc : lookupK changes pos.market_index with
    | none =>
      simp only [applyCollateralChanges, hc] at h
      cases hr : applyCollateralChanges changes amounts t with
      | error e => rw [hr] at h; cases h
      | ok l =>
        rw [hr] at h
        cases h
        exact List.Forall₂.cons
          ⟨fun _ => rfl, fun hne => absurd hc hne⟩ (ih l hr)
    | some ch =>
      simp only [applyCollateralChanges, hc] at h
      cases ha : lookupK amounts pos.market_index with
      | none => rw [ha] at h; cases h
      | some orig =>
        rw [ha] at h
        cases hr : applyCollateralChanges changes amounts t with
        | error e => rw [hr] at h; cases h
        | ok l =>
          rw [hr] at h
          cases h
          refine List.Forall₂.cons
            ⟨fun hnone => absurd hnone (by simp [hc]), fun _ => ?_⟩ (ih l hr)
          exact ⟨rfl, rfl, rfl, rfl, rfl, rfl, rfl⟩

/-- Witness for C10: a change on market 0 (balance 5, 0 decimals, original
2 tokens) rescales only `scaled_balance`; market 1 passes through. -/
theorem collateral_override_field_frame_witness :
    List.Forall₂ (collFrame [(0, ⟨5, 0⟩)])
      [⟨6, 1, 2, 3, 0, 0, 4, [9]⟩, ⟨7, 1, 2, 3, 1, 0, 4, [9]⟩]
      [⟨15, 1, 2, 3, 0, 0, 4, [9]⟩, ⟨7, 1, 2, 3, 1, 0, 4, [9]⟩] := by
  refine collateral_override_field_frame [(0, ⟨5, 0⟩)] [(0, 2)] _ _ ?_
  have h5 : ratTrunc (5 : ℚ) = 5 := by
    have h : (5 : ℚ) = ((5 : ℤ) : ℚ) := by norm_num
    rw [h, ratTrunc_intCast]
  have h15 : newScaledBalance 6 5 2 = 15 := by
    have hq : ((6 : ℤ) : ℚ) * (((5 : ℤ) : ℚ) / ((2 : ℤ) : ℚ)) = ((15 : ℤ) : ℚ) := by
      norm_num
    simp only [newScaledBalance, if_pos (by norm_num : (2 : ℤ) ≠ 0), hq, ratTrunc_intCast]
  simp +decide [applyCollateralChanges, lookupK, h5, h15]

/-! ## Heap lemmas -/

theorem getCH_allocCH_lt (hp : Heaps) (c : CHCache) (i : Nat)
    (h : i < hp.chHeap.length) : getCH (allocCH hp c).1 i = getCH hp i := by
  simp only [getCH, allocCH]
  rw [List.getElem?_append, if_pos h]

theorem getCH_allocCH_self (hp : Heaps) (c : CHCache) :
    getCH (allocCH hp c).1 (allocCH hp c).2 = some c :=
  List.getElem?_concat_length _ _

theorem getUS_allocCH (hp : Heaps) (c : CHCache) (j : Nat) :
    getUS (allocCH hp c).1 j = getUS hp j := rfl

theorem getCH_allocUS (hp : Heaps) (u : UserAndSlot) (i : Nat) :
    getCH (allocUS hp u).1 i = getCH hp i := rfl

theorem getUS_allocUS_lt (hp : Heaps) (u : UserAndSlot) (j : Nat)
    (h : j < hp.usHeap.length) : getUS (allocUS hp u).1 j = getUS hp j := by
  simp only [getUS, allocUS]
  rw [List.getElem?_append, if_pos h]

theorem getUS_allocUS_self (hp : Heaps) (u : UserAndSlot) :
    getUS (allocUS hp u).1 (allocUS hp u).2 = some u :=
  List.getElem?_concat_length _ _

theorem getCH_setUS (hp : Heaps) (j : Nat) (v : UserAndSlot) (i : Nat) :
    getCH (setUS hp j v) i = getCH hp i := rfl

theorem getUS_setUS_ne (hp : Heaps) (j : Nat) (v : UserAndSlot) (i : Nat)
    (h : i ≠ j) : getUS (setUS hp j v) i = getUS hp i := by
  simp only [getUS, setUS]
  rw [List.getElem?_set_ne (Ne.symm h)]

/-- Session fields and pre-pass heap cells that `mainPhase` can never touch:
the snapshot references stored in session state are unchanged, every
pre-existing market-cache cell is unchanged, and every pre-existing user
cell other than the working reference is unchanged. -/
theorem mainPhase_preserves (cfg : Cfg) (p : PState) :
    (mainPhase cfg p).sessOf.clearing_house_cache = p.sess.clearing_house_cache ∧
    (mainPhase cfg p).sessOf.user_and_slot = p.sess.user_and_slot ∧
    (∀ i, i < p.heaps.chHeap.length →
      getCH (mainPhase cfg p).heapsOf i = getCH p.heaps i) ∧
    (∀ j, j < p.heaps.usHeap.length → (∀ w, p.userRef = some w → j ≠ w) →
      getUS (mainPhase cfg p).heapsOf j = getUS p.heaps j) := by
  unfold mainPhase
  cases hur : p.userRef with
  | none => simp [PassResult.sessOf, PassResult.heapsOf]
  | some wu =>
    cases hgu : getUS p.heaps wu with
    | none =>
      cases hgc : getCH p.heaps p.chRef <;>
        simp [hgu, hgc, PassResult.sessOf, PassResult.heapsOf]
    | some uSnap =>
      cases hgc : getCH p.heaps p.chRef with
      | none => simp [hgu, hgc, PassResult.sessOf, PassResult.heapsOf]
      | some cacheVal =>
        simp only [hgu, hgc]
        by_cases hpos :
            activeSpotPositions uSnap.data = [] ∧ activePerpPositions uSnap.data = []
        · rw [if_pos hpos]
          simp [PassResult.sessOf, PassResult.heapsOf]
        · rw [if_neg hpos]
          cases hgd : buildOracleMarkets cacheVal (activePerpPositions uSnap.data)
              (activeSpotPositions uSnap.data) with
          | error e => simp [hgd, PassResult.sessOf, PassResult.heapsOf]
          | ok gd =>
            obtain ⟨gs, d⟩ := gd
            simp only [hgd]
            cases hpw : priceWidgetsGo cacheVal
                (cfg.input.modeEntry.getD (p.sess.adjustment_mode.getD Mode.value))
                cfg.input.entries gs p.sess.widgets [] with
            | error ew => simp [hpw, PassResult.sessOf, PassResult.heapsOf]
            | ok wpc =>
              simp only [hpw]
              cases hcw : collateralWidgetsGo cfg.sdk cacheVal uSnap.data
                  (cfg.input.modeEntry.getD (p.sess.adjustment_mode.getD Mode.value))
                  cfg.input.entries (activeSpotPositions uSnap.data) wpc.1
                  p.sess.original_token_amounts [] with
              | error ewa => simp [hcw, PassResult.sessOf, PassResult.heapsOf]
              | ok wac =>
                simp only [hcw]
                have hph : ∀ i, i < p.heaps.chHeap.length →
                    getCH (if wpc.2 = [] then p.heaps
                      else (allocCH p.heaps (applyPriceChanges cacheVal wpc.2)).1) i =
                      getCH p.heaps i := by
                  intro i hi
                  by_cases hpe : wpc.2 = []
                  · rw [if_pos hpe]
                  · rw [if_neg hpe, getCH_allocCH_lt _ _ _ hi]
                have hphu : ∀ j,
                    getUS (if wpc.2 = [] then p.heaps
                      else (allocCH p.heaps (applyPriceChanges cacheVal wpc.2)).1) j =
                      getUS p.heaps j := by
                  intro j
                  by_cases hpe : wpc.2 = []
                  · rw [if_pos hpe]
                  · rw [if_neg hpe, getUS_allocCH]
                cases happ :
                    (if wac.2.2 = [] then Except.ok Option.none
                     else (applyCollateralChanges wac.2.2 wac.2.1
                       uSnap.data.spot_positions).map some) with
                | error e =>
                  simp only [happ, PassResult.sessOf, PassResult.heapsOf]
                  exact ⟨by trivial, by trivial, hph, fun j hj _ => hphu j⟩
                | ok onew =>
                  simp only [happ]
                  cases honew : onew with
                  | none =>
                    subst honew
                    cases hsr : buildSpotRows cfg.sdk
                        (if wpc.2 = [] then cacheVal else applyPriceChanges cacheVal wpc.2)
                        uSnap.data (activeSpotPositions uSnap.data) with
                    | error e =>
                      simp only [hsr, PassResult.sessOf, PassResult.heapsOf]
                      exact ⟨by trivial, by trivial, hph, fun j hj _ => hphu j⟩
                    | ok srows =>
                      simp only [hsr]
                      cases hpr : buildPerpRows cfg.sdk
                          (if wpc.2 = [] then cacheVal else applyPriceChanges cacheVal wpc.2)
                          uSnap.data (activePerpPositions uSnap.data) with
                      | error e =>
                        simp only [hpr, PassResult.sessOf, PassResult.heapsOf]
                        exact ⟨by trivial, by trivial, hph, fun j hj _ => hphu j⟩
                      | ok prows =>
                        simp only [hpr, PassResult.sessOf, PassResult.heapsOf]
                        exact ⟨by trivial, by trivial, hph, fun j hj _ => hphu j⟩
                  | some ps =>
                    subst honew
                    have hset : ∀ j, j < p.heaps.usHeap.length → j ≠ wu →
                        getUS (setUS
                          (if wpc.2 = [] then p.heaps
                           else (allocCH p.heaps (applyPriceChanges cacheVal wpc.2)).1) wu
                          { uSnap with data := { uSnap.data with spot_positions := ps } }) j =
                          getUS p.heaps j := by
                      intro j hj hne
                      rw [getUS_setUS_ne _ _ _ _ hne, hphu j]
                    cases hsr : buildSpotRows cfg.sdk
                        (if wpc.2 = [] then cacheVal else applyPriceChanges cacheVal wpc.2)
                        { uSnap with data :=
                          { uSnap.data with spot_positions := ps } }.data
                        (activeSpotPositions uSnap.data) with
                    | error e =>
                      simp only [hsr, PassResult.sessOf, PassResult.heapsOf]
                      exact ⟨by trivial, by trivial, fun i hi => hph i hi,
                          fun j hj hw => hset j hj (hw wu rfl)⟩
                    | ok srows =>
                      simp only [hsr]
                      cases hpr : buildPerpRows cfg.sdk
                          (if wpc.2 = [] then cacheVal else applyPriceChanges cacheVal wpc.2)
                          { uSnap with data :=
                            { uSnap.data with spot_positions := ps } }.data
                          (activePerpPositions uSnap.data) with
                      | error e =>
                        simp only [hpr, PassResult.sessOf, PassResult.heapsOf]
                        exact ⟨by trivial, by trivial, fun i hi => hph i hi,
                          fun j hj hw => hset j hj (hw wu rfl)⟩
                      | ok prows =>
                        simp only [hpr, PassResult.sessOf, PassResult.heapsOf]
                        exact ⟨by trivial, by trivial, fun i hi => hph i hi,
                          fun j hj hw => hset j hj (hw wu rfl)⟩

/-! ## C1 -/

set_option maxHeartbeats 1000000 in
/-- C1: a render pass for an already-cached target (same authority and
subaccount) never mutates the session-stored snapshots: whatever the pass
does — any price or collateral overrides included — the session still
references the same market-cache and user-snapshot heap cells afterwards,
and the values in those cells are untouched (only deep copies made during
the pass are written). -/
theorem session_snapshots_pristine (cfg : Cfg) (sess : SessionState) (hp : Heaps)
    (rc ru nSub : Nat)
    (hrc : sess.clearing_house_cache = some rc) (hrclt : rc < hp.chHeap.length)
    (hru : sess.user_and_slot = some (some ru)) (hrult : ru < hp.usHeap.length)
    (hauth : sess.current_authority = some cfg.input.authority)
    (hfetch : cfg.world.userStatsFetch = Except.ok nSub) (hn : ¬ nSub = 0)
    (hsub : sess.subaccount = some (cfg.input.subChoice % nSub)) :
    (liqcalc cfg sess hp).sessOf.clearing_house_cache = some rc ∧
    (liqcalc cfg sess hp).sessOf.user_and_slot = some (some ru) ∧
    getCH (liqcalc cfg sess hp).heapsOf rc = getCH hp rc ∧
    getUS (liqcalc cfg sess hp).heapsOf ru = getUS hp ru := by
  obtain ⟨V, hV⟩ : ∃ V, getCH hp rc = some V := by
    simp only [getCH]
    exact ⟨_, List.getElem?_eq_getElem hrclt⟩
  obtain ⟨U, hU⟩ : ∃ U, getUS hp ru = some U := by
    simp only [getUS]
    exact ⟨_, List.getElem?_eq_getElem hrult⟩
  by_cases h1 : cfg.input.authority = ""
  · have hend : liqcalc cfg sess hp = .halted sess hp "" := by
      unfold liqcalc setupPhase
      rw [if_pos h1]
    rw [hend]
    exact ⟨hrc, hru, rfl, rfl⟩
  by_cases h2 : cfg.input.authority.length < 5
  · have hend : liqcalc cfg sess hp = .halted sess hp shortAddressMsg := by
      unfold liqcalc setupPhase
      rw [if_neg h1, if_pos h2]
    rw [hend]
    exact ⟨hrc, hru, rfl, rfl⟩
  have hinv : invalidateOnAuthorityChange cfg.input.authority sess = sess := by
    unfold invalidateOnAuthorityChange
    rw [if_pos hauth]
  by_cases h3 : cfg.world.pubkeyValid = false
  · have hend : liqcalc cfg sess hp =
        .raised sess hp "ValueError: invalid pubkey string" := by
      unfold liqcalc setupPhase
      rw [if_neg h1, if_neg h2, hinv, if_pos h3]
    rw [hend]
    exact ⟨hrc, hru, rfl, rfl⟩
  have hens : ensureMarketCache cfg.world sess hp = (sess, hp) := by
    unfold ensureMarketCache
    rw [hrc]
  have hstats : setupStats cfg sess hp =
      .ok ⟨sess, (allocUS (allocCH hp V).1 U).1, (allocCH hp V).2,
        some (allocUS (allocCH hp V).1 U).2⟩ := by
    simp only [setupStats, hrc, hV, hfetch, if_neg hn, if_pos hsub, setupFinish, hru,
      getUS_allocCH, hU]
  have hphase : setupPhase cfg sess hp =
      .ok ⟨sess, (allocUS (allocCH hp V).1 U).1, (allocCH hp V).2,
        some (allocUS (allocCH hp V).1 U).2⟩ := by
    unfold setupPhase
    rw [if_neg h1, if_neg h2, hinv, if_neg h3, hens]
    exact hstats
  have hliq : liqcalc cfg sess hp =
      mainPhase cfg ⟨sess, (allocUS (allocCH hp V).1 U).1, (allocCH hp V).2,
        some (allocUS (allocCH hp V).1 U).2⟩ := by
    unfold liqcalc
    rw [hphase]
  obtain ⟨hm1, hm2, hm3, hm4⟩ := mainPhase_preserves cfg
    ⟨sess, (allocUS (allocCH hp V).1 U).1, (allocCH hp V).2,
      some (allocUS (allocCH hp V).1 U).2⟩
  have hlen1 : rc < (allocUS (allocCH hp V).1 U).1.chHeap.length := by
    simp only [allocUS, allocCH, List.length_append, List.length_singleton]
    omega
  have hlen2 : ru < (allocUS (allocCH hp V).1 U).1.usHeap.length := by
    simp only [allocUS, allocCH, List.length_append, List.length_singleton]
    omega
  refine ⟨?_, ?_, ?_, ?_⟩
  · rw [hliq, hm1]
    exact hrc
  · rw [hliq, hm2]
    exact hru
  · rw [hliq, hm3 rc hlen1, getCH_allocUS, getCH_allocCH_lt _ _ _ hrclt]
  · rw [hliq, hm4 ru hlen2 ?_,
      getUS_allocUS_lt _ _ _ (by simpa only [allocCH] using hrult), getUS_allocCH]
    intro w hw
    have hw2 : w = hp.usHeap.length := by
      simpa only [allocUS, allocCH, Option.some.injEq] using hw.symm
    omega

/-- Witness for C1: a second pass over the already-cached scenario target
(with an `$80` price override entered) leaves the session-stored heap cells
0 untouched. -/
theorem session_snapshots_pristine_witness :
    (liqcalc (sCfg80 wSDK) cxSess cxHp).sessOf.clearing_house_cache = some 0 ∧
    (liqcalc (sCfg80 wSDK) cxSess cxHp).sessOf.user_and_slot = some (some 0) ∧
    getCH (liqcalc (sCfg80 wSDK) cxSess cxHp).heapsOf 0 = getCH cxHp 0 ∧
    getUS (liqcalc (sCfg80 wSDK) cxSess cxHp).heapsOf 0 = getUS cxHp 0 :=
  session_snapshots_pristine (sCfg80 wSDK) cxSess cxHp 0 0 1
    rfl (by decide) rfl (by decide) rfl rfl (by decide) rfl

/-! ## C5 -/

theorem lookupK_eraseOverrideKeys (l : List (String × ℚ)) (k : String)
    (h : strStartsWith k "price_" = true ∨ strStartsWith k "balance_" = true) :
    lookupK (eraseOverrideKeys l) k = none := by
  induction l with
  | nil => rfl
  | cons p t ih =>
    obtain ⟨k', v⟩ := p
    rw [eraseOverrideKeys, List.filter_cons]
    by_cases hkeep : (!(strStartsWith k' "price_" || strStartsWith k' "balance_")) = true
    · rw [if_pos hkeep, lookupK]
      by_cases hkk : k' = k
      · exfalso
        subst hkk
        rcases h with h | h <;> simp [h] at hkeep
      · rw [if_neg hkk]
        exact ih
    · rw [if_neg hkeep]
      exact ih

theorem getUS_alloc_twice (hp : Heaps) (u v : UserAndSlot) :
    getUS (allocUS (allocUS hp u).1 v).1 (allocUS hp u).2 = some u := by
  rw [getUS_allocUS_lt]
  · exact getUS_allocUS_self hp u
  · simp only [allocUS, List.length_append, List.length_singleton]
    omega

/-- The changed-subaccount path of `setupStats`: refetch the user snapshot,
commit the new subaccount, purge the override widget keys, and take the
working deep copies. -/
theorem setupStats_changed (cfg : Cfg) (sess2 : SessionState) (hp1 : Heaps)
    (nSub rc : Nat) (cacheV : CHCache) (snap : UserAndSlot)
    (hcc : sess2.clearing_house_cache = some rc)
    (hgc : getCH hp1 rc = some cacheV)
    (hf : cfg.world.userStatsFetch = Except.ok nSub) (hn : ¬ nSub = 0)
    (hsne : ¬ sess2.subaccount = some (cfg.input.subChoice % nSub))
    (hu : cfg.world.userSnapFetch = some snap) :
    setupStats cfg sess2 hp1 = .ok
      ⟨{ sess2 with
          subaccount := some (cfg.input.subChoice % nSub),
          user_and_slot := some (some (allocUS (allocCH hp1 cacheV).1 snap).2),
          widgets := eraseOverrideKeys sess2.widgets },
        (allocUS (allocUS (allocCH hp1 cacheV).1 snap).1 snap).1,
        (allocCH hp1 cacheV).2,
        some (allocUS (allocUS (allocCH hp1 cacheV).1 snap).1 snap).2⟩ := by
  simp only [setupStats, hcc, hgc, hf, if_neg hn, if_neg hsne, hu, setupFinish]
  rw [getUS_allocUS_self]

/-- The changed-subaccount path when the user refetch comes back empty:
the pass commits the new subaccount, stores `None`, purges the widget keys,
and halts with the no-data message. -/
theorem setupStats_changed_noneSnap (cfg : Cfg) (sess2 : SessionState)
    (hp1 : Heaps) (nSub rc : Nat) (cacheV : CHCache)
    (hcc : sess2.clearing_house_cache = some rc)
    (hgc : getCH hp1 rc = some cacheV)
    (hf : cfg.world.userStatsFetch = Except.ok nSub) (hn : ¬ nSub = 0)
    (hsne : ¬ sess2.subaccount = some (cfg.input.subChoice % nSub))
    (hu : cfg.world.userSnapFetch = none) :
    setupStats cfg sess2 hp1 = .error (.halted
      { sess2 with
        subaccount := some (cfg.input.subChoice % nSub),
        user_and_slot := some none,
        widgets := eraseOverrideKeys sess2.widgets } (allocCH hp1 cacheV).1 noDataMsg) := by
  simp only [setupStats, hcc, hgc, hf, if_neg hn, if_neg hsne, hu]

set_option maxHeartbeats 1000000 in
/-- C5 (amended): when the pass reaches the widget-rendering phase after a
target change, every `price_`/`balance_` override widget key has been
purged and the user snapshot has been freshly refetched; on an authority
change the market-account cache is also refetched, while on a
subaccount-only change the session keeps the previously cached
market-account snapshot untouched (it is not cleared). -/
theorem target_change_clears_override_state (cfg : Cfg) (sess : SessionState)
    (hp : Heaps) (p : PState) :
    (¬ sess.current_authority = some cfg.input.authority →
      setupPhase cfg sess hp = .ok p →
      (∀ k, (strStartsWith k "price_" = true ∨ strStartsWith k "balance_" = true) →
        lookupK p.sess.widgets k = none) ∧
      (∃ rcN, p.sess.clearing_house_cache = some rcN ∧
        getCH p.heaps rcN = some cfg.world.chCacheFetch) ∧
      (∃ ruN snap, cfg.world.userSnapFetch = some snap ∧
        p.sess.user_and_slot = some (some ruN) ∧ getUS p.heaps ruN = some snap)) ∧
    (∀ nSub, sess.current_authority = some cfg.input.authority →
      cfg.world.userStatsFetch = Except.ok nSub → ¬ nSub = 0 →
      ¬ sess.subaccount = some (cfg.input.subChoice % nSub) →
      setupPhase cfg sess hp = .ok p →
      (∀ k, (strStartsWith k "price_" = true ∨ strStartsWith k "balance_" = true) →
        lookupK p.sess.widgets k = none) ∧
      (∀ rc0, sess.clearing_house_cache = some rc0 →
        p.sess.clearing_house_cache = some rc0 ∧
        getCH p.heaps rc0 = getCH hp rc0) ∧
      (∃ ruN snap, cfg.world.userSnapFetch = some snap ∧
        p.sess.user_and_slot = some (some ruN) ∧ getUS p.heaps ruN = some snap)) := by
  constructor
  · intro hA hok
    unfold setupPhase at hok
    by_cases h1 : cfg.input.authority = ""
    · rw [if_pos h1] at hok; cases hok
    rw [if_neg h1] at hok
    by_cases h2 : cfg.input.authority.length < 5
    · rw [if_pos h2] at hok; cases hok
    rw [if_neg h2] at hok
    by_cases h3 : cfg.world.pubkeyValid = false
    · rw [if_pos h3] at hok; cases hok
    rw [if_neg h3] at hok
    rw [show invalidateOnAuthorityChange cfg.input.authority sess =
        { sess with
          current_authority := some cfg.input.authority,
          clearing_house_cache := none,
          user_and_slot := none,
          subaccount := none } from by
      unfold invalidateOnAuthorityChange; rw [if_neg hA]] at hok
    rw [show ensureMarketCache cfg.world
        { sess with
          current_authority := some cfg.input.authority,
          clearing_house_cache := none,
          user_and_slot := none,
          subaccount := none } hp =
        ({ sess with
           current_authority := some cfg.input.authority,
           clearing_house_cache := some (allocCH hp cfg.world.chCacheFetch).2,
           user_and_slot := none,
           subaccount := none },
         (allocCH hp cfg.world.chCacheFetch).1) from rfl] at hok
    simp only [] at hok
    cases hf : cfg.world.userStatsFetch with
    | error e =>
      simp only [setupStats, getCH_allocCH_self, hf] at hok
      cases hok
    | ok nSub =>
      by_cases hn : nSub = 0
      · simp only [setupStats, getCH_allocCH_self, hf, if_pos hn] at hok
        cases hok
      cases hu : cfg.world.userSnapFetch with
      | none =>
        rw [setupStats_changed_noneSnap cfg _ _ nSub
          (allocCH hp cfg.world.chCacheFetch).2 cfg.world.chCacheFetch rfl
          (getCH_allocCH_self hp cfg.world.chCacheFetch) hf hn (by simp) hu] at hok
        cases hok
      | some snap =>
        rw [setupStats_changed cfg _ _ nSub
          (allocCH hp cfg.world.chCacheFetch).2 cfg.world.chCacheFetch snap rfl
          (getCH_allocCH_self hp cfg.world.chCacheFetch) hf hn (by simp) hu] at hok
        cases hok
        refine ⟨fun k hk => lookupK_eraseOverrideKeys _ k hk, ⟨_, rfl, ?_⟩, ?_⟩
        · rw [getCH_allocUS, getCH_allocUS, getCH_allocCH_lt]
          · exact getCH_allocCH_self hp cfg.world.chCacheFetch
          · simp only [allocCH, List.length_append, List.length_singleton]
            omega
        · exact ⟨_, snap, rfl, rfl, getUS_alloc_twice _ _ _⟩
  · intro nSub hA hf hn hsne hok
    unfold setupPhase at hok
    by_cases h1 : cfg.input.authority = ""
    · rw [if_pos h1] at hok; cases hok
    rw [if_neg h1] at hok
    by_cases h2 : cfg.input.authority.length < 5
    · rw [if_pos h2] at hok; cases hok
    rw [if_neg h2] at hok
    by_cases h3 : cfg.world.pubkeyValid = false
    · rw [if_pos h3] at hok; cases hok
    rw [if_neg h3] at hok
    rw [show invalidateOnAuthorityChange cfg.input.authority sess = sess from by
      unfold invalidateOnAuthorityChange; rw [if_pos hA]] at hok
    cases hcc : sess.clearing_house_cache with
    | none =>
      rw [show ensureMarketCache cfg.world sess hp =
          ({ sess with clearing_house_cache := some (allocCH hp cfg.world.chCacheFetch).2 },
           (allocCH hp cfg.world.chCacheFetch).1) from by
        unfold ensureMarketCache; rw [hcc]] at hok
      simp only [] at hok
      cases hu : cfg.world.userSnapFetch with
      | none =>
        rw [setupStats_changed_noneSnap cfg _ _ nSub
          (allocCH hp cfg.world.chCacheFetch).2 cfg.world.chCacheFetch rfl
          (getCH_allocCH_self hp cfg.world.chCacheFetch) hf hn (by simpa using hsne) hu] at hok
        cases hok
      | some snap =>
        rw [setupStats_changed cfg _ _ nSub
          (allocCH hp cfg.world.chCacheFetch).2 cfg.world.chCacheFetch snap rfl
          (getCH_allocCH_self hp cfg.world.chCacheFetch) hf hn (by simpa using hsne) hu] at hok
        cases hok
        refine ⟨fun k hk => lookupK_eraseOverrideKeys _ k hk, ?_, ?_⟩
        · intro rc0 hrc0
          cases hrc0
        · exact ⟨_, snap, rfl, rfl, getUS_alloc_twice _ _ _⟩
    | some rc =>
      rw [show ensureMarketCache cfg.world sess hp = (sess, hp) from by
        unfold ensureMarketCache; rw [hcc]] at hok
      simp only [] at hok
      cases hgc : getCH hp rc with
      | none =>
        simp only [setupStats, hcc, hgc] at hok
        cases hok
      | some cacheV =>
        cases hu : cfg.world.userSnapFetch with
        | none =>
          rw [setupStats_changed_noneSnap cfg sess hp nSub rc cacheV hcc hgc hf hn hsne hu] at hok
          cases hok
        | some snap =>
          rw [setupStats_changed cfg sess hp nSub rc cacheV snap hcc hgc hf hn hsne hu] at hok
          cases hok
          have hrclt : rc < hp.chHeap.length := by
            have hx := hgc
            simp only [getCH] at hx
            exact (List.getElem?_eq_some.mp hx).1
          refine ⟨fun k hk => lookupK_eraseOverrideKeys _ k hk, ?_, ?_⟩
          · intro rc0 hrc0
            cases hrc0
            exact ⟨hcc, by rw [getCH_allocUS, getCH_allocUS, getCH_allocCH_lt _ _ _ hrclt]⟩
          · exact ⟨_, snap, rfl, rfl, getUS_alloc_twice _ _ _⟩

/-- Counterexample to C5 as stated: a pass that switches only the
subaccount (0 to 1, same authority) reaches the widget phase with the
session-stored market-account cache NOT cleared — the session still holds
reference 0 whose value is the old `cxCacheOld`, even though a fresh fetch
would return the different `cxCacheFresh`. -/
theorem subaccount_change_keeps_market_cache :
    (setupOk cxCfg cxSess cxHp).map (fun p => p.sess.clearing_house_cache) =
      some (some 0) ∧
    (setupOk cxCfg cxSess cxHp).map (fun p => getCH p.heaps 0) =
      some (some cxCacheOld) ∧
    cxSess.clearing_house_cache = some 0 ∧
    getCH cxHp 0 = some cxCacheOld ∧
    ¬ cxCacheOld = cxCfg.world.chCacheFetch ∧
    cxSess.subaccount = some 0 ∧
    (setupOk cxCfg cxSess cxHp).map (fun p => p.sess.subaccount) = some (some 1) :=
  ⟨rfl, rfl, rfl, rfl, by decide, rfl, rfl⟩

/-- Witness for the amended C5: the subaccount-only change of `cxCfg`
purges the stored `price_value_7-1` widget key by widget time. -/
theorem target_change_clears_override_state_witness :
    lookupK
      (PState.mk
        { current_authority := some "ABCDE",
          clearing_house_cache := some 0,
          user_and_slot := some (some 1),
          subaccount := some 1,
          adjustment_mode := some Mode.value,
          widgets := [],
          original_token_amounts := [] }
        ⟨[cxCacheOld, cxCacheOld], [⟨sUser, 3⟩, ⟨sUser, 9⟩, ⟨sUser, 9⟩]⟩ 1
        (some 2)).sess.widgets "price_value_7-1" = none :=
  ((target_change_clears_override_state cxCfg cxSess cxHp _).2 2 rfl rfl
    (by decide) (by decide) (by rfl)).1 "price_value_7-1" (Or.inl (by decide))

/-! ## C9 -/

/-- The fetch-failure path of `setupStats`: the exception raised by the
user-stats fetch is caught at the fetch site and the pass halts with the
error message of src/liqcalc.py:66. -/
theorem setupStats_fetch_error (cfg : Cfg) (sess2 : SessionState) (hp1 : Heaps)
    (rc : Nat) (cacheV : CHCache) (e : String)
    (hcc : sess2.clearing_house_cache = some rc)
    (hgc : getCH hp1 rc = some cacheV)
    (hf : cfg.world.userStatsFetch = Except.error e) :
    setupStats cfg sess2 hp1 =
      .error (.halted sess2 (allocCH hp1 cacheV).1 fetchErrorMsg) := by
  simp only [setupStats, hcc, hgc, hf]

set_option maxHeartbeats 1000000 in
/-- C9: a user-stats fetch failure is caught at the fetch site — the pass
halts with the user-visible fetch-error message instead of raising — and
`main`'s catch-all `try`/`except` means no pass outcome of `mainRun` is
ever an uncaught exception: every raised exception is converted to a
user-visible error message. -/
theorem errors_are_recoverable :
    (∀ cfg sess hp e, ¬ cfg.input.authority = "" → ¬ cfg.input.authority.length < 5 →
      cfg.world.pubkeyValid = true → cfg.world.userStatsFetch = Except.error e →
      (sess.clearing_house_cache = none ∨
        ∃ rc, sess.clearing_house_cache = some rc ∧ rc < hp.chHeap.length) →
      (liqcalc cfg sess hp).msgOf = some fetchErrorMsg) ∧
    (∀ env cfg sess hp s h e, ¬ mainRun env cfg sess hp = .raised s h e) := by
  constructor
  · intro cfg sess hp e h1 h2 hpk hf hwf
    unfold liqcalc setupPhase
    rw [if_neg h1, if_neg h2, if_neg (by simp [hpk])]
    by_cases hA : sess.current_authority = some cfg.input.authority
    · rw [show invalidateOnAuthorityChange cfg.input.authority sess = sess from by
        unfold invalidateOnAuthorityChange; rw [if_pos hA]]
      rcases hwf with hcc | ⟨rc, hcc, hlt⟩
      · rw [show ensureMarketCache cfg.world sess hp =
            ({ sess with clearing_house_cache := some (allocCH hp cfg.world.chCacheFetch).2 },
             (allocCH hp cfg.world.chCacheFetch).1) from by
          unfold ensureMarketCache; rw [hcc]]
        rw [setupStats_fetch_error cfg _ _
          (allocCH hp cfg.world.chCacheFetch).2 cfg.world.chCacheFetch e rfl
          (getCH_allocCH_self hp cfg.world.chCacheFetch) hf]
        rfl
      · obtain ⟨V, hV⟩ : ∃ V, getCH hp rc = some V := by
          simp only [getCH]
          exact ⟨_, List.getElem?_eq_getElem hlt⟩
        rw [show ensureMarketCache cfg.world sess hp = (sess, hp) from by
          unfold ensureMarketCache; rw [hcc]]
        rw [setupStats_fetch_error cfg sess hp rc V e hcc hV hf]
        rfl
    · rw [show invalidateOnAuthorityChange cfg.input.authority sess =
          { sess with
            current_authority := some cfg.input.authority,
            clearing_house_cache := none,
            user_and_slot := none,
            subaccount := none } from by
        unfold invalidateOnAuthorityChange; rw [if_neg hA]]
      rw [show ensureMarketCache cfg.world
          { sess with
            current_authority := some cfg.input.authority,
            clearing_house_cache := none,
            user_and_slot := none,
            subaccount := none } hp =
          ({ sess with
             current_authority := some cfg.input.authority,
             clearing_house_cache := some (allocCH hp cfg.world.chCacheFetch).2,
             user_and_slot := none,
             subaccount := none },
           (allocCH hp cfg.world.chCacheFetch).1) from rfl]
      rw [setupStats_fetch_error cfg _ _
        (allocCH hp cfg.world.chCacheFetch).2 cfg.world.chCacheFetch e rfl
        (getCH_allocCH_self hp cfg.world.chCacheFetch) hf]
      rfl
  · intro env cfg sess hp s h e
    unfold mainRun
    cases env with
    | none => intro hcon; cases hcon
    | some u =>
      cases hres : liqcalc cfg sess hp with
      | rendered s2 h2 o => simp only [hres]; intro hcon; cases hcon
      | halted s2 h2 m => simp only [hres]; intro hcon; cases hcon
      | raised s2 h2 m => simp only [hres]; intro hcon; cases hcon

/-- Witness for C9: a concrete failing fetch halts with the fetch-error
message, and a concrete `mainRun` outcome is not an uncaught exception. -/
theorem errors_are_recoverable_witness :
    (liqcalc ⟨⟨sCache, Except.error "boom", some ⟨sUser, 3⟩, true⟩,
      ⟨"ABCDE", 0, none, []⟩, wSDK⟩ {} Heaps.empty).msgOf = some fetchErrorMsg ∧
    ¬ mainRun (some "url") (sCfg0 wSDK) {} Heaps.empty =
      .raised {} Heaps.empty "boom" :=
  ⟨errors_are_recoverable.1 _ {} Heaps.empty "boom" (by decide) (by decide) rfl rfl
    (Or.inl rfl),
   errors_are_recoverable.2 (some "url") (sCfg0 wSDK) {} Heaps.empty {} Heaps.empty "boom"⟩

end LiqCalc
